import Mathlib

/-!
A Lean model of the digest ranking and summarization engine of the
canada-builds-discord-bot repository, together with theorems about its
behaviour.

The model follows the TypeScript source closely:

* `GuildFeatureConfigService` models the per-guild channel-multiplier
  configuration (`src/services/GuildFeatureConfigService.ts`, reproduced
  inside `TopicTrendService.ts` in this snapshot).
* `ThreadScoringService` models heuristic thread scoring
  (`src/services/digest/ThreadScoringService.ts`).
* `ThemeClusterService` models greedy similarity clustering
  (`src/services/digest/ThemeClusterService.ts`).
* `Summarizer` models the deterministic extractive summarizer
  (the `Summarizer` class of `ThreadScoringService.ts`).

JavaScript numbers are modelled as rationals (`ℚ`) for data that the code
only adds, multiplies and compares, and as reals (`ℝ`) where the code
applies `Math.log` or `Math.sqrt`.  JavaScript `Map` / `Set` objects are
modelled as insertion-ordered association lists / duplicate-free lists,
matching the iteration order the code relies on.  `Array.prototype.sort`
(stable since ES2019) is modelled by `List.mergeSort`, which is stable.
-/

/-! ### Association-list maps (JavaScript `Map` with insertion order) -/

/-- Add `w` to the entry of key `k`, keeping insertion order; append a new
entry when `k` is absent.  Models `m.set(k, (m.get(k) ?? 0) + w)`. -/
def bumpAssoc (m : List (String × ℚ)) (k : String) (w : ℚ) : List (String × ℚ) :=
  match m with
  | [] => [(k, w)]
  | (k₀, v) :: rest => if k₀ = k then (k₀, v + w) :: rest else (k₀, v) :: bumpAssoc rest k w

/-- Replace the value at key `k`, or append the entry.  Models `m.set(k, v)`
and JavaScript object property assignment. -/
def setAssoc {β : Type} (m : List (String × β)) (k : String) (v : β) : List (String × β) :=
  match m with
  | [] => [(k, v)]
  | (k₀, v₀) :: rest => if k₀ = k then (k₀, v) :: rest else (k₀, v₀) :: setAssoc rest k v

/-- Remove the entry at key `k` (if present).  Models `delete m[k]` /
Mongo `$unset`. -/
def removeAssoc {β : Type} (m : List (String × β)) (k : String) : List (String × β) :=
  match m with
  | [] => []
  | (k₀, v₀) :: rest => if k₀ = k then rest else (k₀, v₀) :: removeAssoc rest k

/-- First-occurrence deduplication, as performed by iterating a JavaScript
`Set` built from a list. -/
def firstDedupAux (seen : List String) : List String → List String
  | [] => []
  | k :: rest =>
      if k ∈ seen then firstDedupAux seen rest
      else k :: firstDedupAux (seen ++ [k]) rest

def firstDedup (l : List String) : List String := firstDedupAux [] l

/-- Insert a key into a JavaScript-`Set`-like list (no-op when present). -/
def insertUniq (l : List String) (k : String) : List String :=
  if k ∈ l then l else l ++ [k]

/-! ### Guild feature configuration (channel multipliers)

Models the `GuildFeatureConfigService` class: an in-memory cache mapping
guild ids to configurations, each holding a channel-id → multiplier map.
`setChannelMultiplier` sanitizes with
`Math.max(0, Math.min(5, Number.isFinite(weight) ? weight : 1))`;
a non-finite input (modelled by `none`) is replaced by `1`. -/

structure GuildFeatureConfig where
  channelMultipliers : List (String × ℚ)
deriving Repr, DecidableEq

structure GuildConfigState where
  cache : List (String × GuildFeatureConfig)
deriving Repr, DecidableEq

namespace GuildFeatureConfigService

/-- The initial state: no guild configurations cached. -/
def initState : GuildConfigState := ⟨[]⟩

/-- Models `getChannelMultiplier`: default `1` when the guild has no config or the
channel has no entry. -/
def getChannelMultiplier (st : GuildConfigState) (guildId channelId : String) : ℚ :=
  match st.cache.lookup guildId with
  | none => 1
  | some config => (config.channelMultipliers.lookup channelId).getD 1

/-- The sanitization applied on writes:
`Math.max(0, Math.min(5, Number.isFinite(weight) ? weight : 1))`
(`none` models a non-finite JavaScript number). -/
def sanitizeWeight (weight : Option ℚ) : ℚ :=
  max 0 (min 5 (match weight with | some q => q | none => 1))

/-- Models `setChannelMultiplier`: upsert the sanitized weight under the channel id
(the guild config is created when absent, as Mongo `upsert: true` does). -/
def setChannelMultiplier (st : GuildConfigState) (guildId channelId : String)
    (weight : Option ℚ) : GuildConfigState :=
  let config := (st.cache.lookup guildId).getD ⟨[]⟩
  let config' : GuildFeatureConfig :=
    ⟨setAssoc config.channelMultipliers channelId (sanitizeWeight weight)⟩
  ⟨setAssoc st.cache guildId config'⟩

/-- Models `clearChannelMultiplier`: remove the channel entry; no upsert, so a guild
with no config is left untouched. -/
def clearChannelMultiplier (st : GuildConfigState) (guildId channelId : String) :
    GuildConfigState :=
  match st.cache.lookup guildId with
  | none => st
  | some config => ⟨setAssoc st.cache guildId ⟨removeAssoc config.channelMultipliers channelId⟩⟩

/-- The write operations of the multiplier store. -/
inductive ConfigOp where
  | set (guildId channelId : String) (weight : Option ℚ)
  | clear (guildId channelId : String)
deriving Repr

/-- Apply one write operation. -/
def applyOp (st : GuildConfigState) : ConfigOp → GuildConfigState
  | .set g c w => setChannelMultiplier st g c w
  | .clear g c => clearChannelMultiplier st g c

/-- Apply a sequence of write operations to the initial (empty) state. -/
def applyOps (ops : List ConfigOp) : GuildConfigState :=
  ops.foldl applyOp initState

/-- All stored multiplier values lie in `[0, 5]`. -/
def WeightsInRange (st : GuildConfigState) : Prop :=
  ∀ g config, st.cache.lookup g = some config →
    ∀ c q, config.channelMultipliers.lookup c = some q → 0 ≤ q ∧ q ≤ 5

end GuildFeatureConfigService

/-! ### Thread features and scoring

Models `ThreadFeature` (from `ThreadFeatureExtractor.ts`) and the
`ThreadScoringService` class.  Timestamps are milliseconds since the epoch,
as `Date.getTime()` returns. -/

structure MessageForSummary where
  id : String
  authorUsername : String
  content : String
  timestamp : ℚ
  url : String
deriving Repr, DecidableEq

structure TopicHitMetric where
  slug : String
  keywordHits : ℕ
  bigramHits : ℕ
  boost : ℚ
deriving Repr, DecidableEq

structure ThreadFeature where
  key : String
  guildId : String
  channelId : String
  uniqueParticipants : ℕ
  messageCount : ℕ
  reactionWeighted : ℚ
  topicHits : List TopicHitMetric
  linkCount : ℕ
  decisionVerbHits : ℕ
  hasLinks : Bool
  firstMessageAt : ℚ
  lastMessageAt : ℚ
  matchedKeywords : List String
  messages : List MessageForSummary
deriving Repr, DecidableEq

structure ScoreBreakdown where
  participants : ℝ
  messageCount : ℝ
  reactions : ℝ
  topicHits : ℝ
  links : ℝ
  decisions : ℝ
  timeDecay : ℝ

structure ThreadScore where
  feature : ThreadFeature
  score : ℝ
  breakdown : ScoreBreakdown

namespace ThreadScoringService

/-- Models `computeTopicHitScore`: fold over topic hits adding
`(keywordHits × 2 + bigramHits × 4) × boost`. -/
def computeTopicHitScore (feature : ThreadFeature) : ℚ :=
  feature.topicHits.foldl
    (fun total hit =>
      total + ((hit.keywordHits : ℚ) * 2 + (hit.bigramHits : ℚ) * 4) * hit.boost)
    0

/-- Score one feature (the body of the `features.map` callback in
`scoreThreads`).  `now` is the `Date.now()` wall-clock sample. -/
noncomputable def scoreOne (cfg : GuildConfigState) (guildId : String) (now : ℚ)
    (feature : ThreadFeature) : ThreadScore :=
  let participants : ℝ := 1.2 * (feature.uniqueParticipants : ℝ)
  let messageCount : ℝ := Real.log (1 + (feature.messageCount : ℝ))
  let reactions : ℝ := 0.8 * (feature.reactionWeighted : ℝ)
  let topicHits : ℝ := 1.3 * (computeTopicHitScore feature : ℝ)
  let links : ℝ := 1.1 * (if feature.hasLinks then 2 else 0)
  let decisions : ℝ := 1.4 * (feature.decisionVerbHits : ℝ) * 3
  let hoursSinceLast : ℝ := ((now : ℝ) - (feature.lastMessageAt : ℝ)) / (1000 * 60 * 60)
  let timeDecay : ℝ := max 0 (hoursSinceLast / 72)
  let rawScore : ℝ :=
    participants + messageCount + reactions + topicHits + links + decisions - timeDecay
  let multiplier : ℚ :=
    GuildFeatureConfigService.getChannelMultiplier cfg guildId feature.channelId
  { feature := feature
    score := rawScore * (multiplier : ℝ)
    breakdown :=
      { participants := participants
        messageCount := messageCount
        reactions := reactions
        topicHits := topicHits
        links := links
        decisions := decisions
        timeDecay := timeDecay } }

/-- Models `scoreThreads`: map `scoreOne` over the features, then stable-sort
descending by score (`sort((a, b) => b.score - a.score)`). -/
noncomputable def scoreThreads (cfg : GuildConfigState) (guildId : String) (now : ℚ)
    (features : List ThreadFeature) : List ThreadScore :=
  (features.map (scoreOne cfg guildId now)).mergeSort
    (fun a b => decide (b.score ≤ a.score))

end ThreadScoringService

/-! ### Theme clustering

Models the `ThemeClusterService` class.  A token-weight vector
(JavaScript `Map<string, number>`) is an insertion-ordered association
list. -/

/-- A sparse token-weight vector. -/
abbrev TokenVec := List (String × ℚ)

structure ThreadCluster where
  id : String
  label : String
  members : List ThreadScore
  topTokens : List String

structure ThemeAnalysis where
  clusters : List ThreadCluster
  globalTopTokens : List (String × ℚ)

namespace ThemeClusterService

/-- Models `a.get(token) ?? 0`. -/
def vecGet (v : TokenVec) (token : String) : ℚ := (v.lookup token).getD 0

/-- Models `buildVector`: topic hits contribute `(keywordHits×2 + bigramHits×4) × boost`
under the topic slug (skipped when ≤ 0), then each matched keyword adds 1. -/
def buildVector (score : ThreadScore) : TokenVec :=
  let v₁ := score.feature.topicHits.foldl
    (fun v hit =>
      let weight := ((hit.keywordHits : ℚ) * 2 + (hit.bigramHits : ℚ) * 4) * hit.boost
      if weight ≤ 0 then v else bumpAssoc v hit.slug weight)
    []
  score.feature.matchedKeywords.foldl (fun v keyword => bumpAssoc v keyword 1) v₁

/-- The shared key set `new Set([...a.keys(), ...b.keys()])`, in insertion
order. -/
def sharedKeys (a b : TokenVec) : List String :=
  firstDedup (a.map Prod.fst ++ b.map Prod.fst)

/-- Dot product accumulated over the shared keys. -/
def dotOver (a b : TokenVec) (keys : List String) : ℚ :=
  (keys.map (fun t => vecGet a t * vecGet b t)).sum

/-- Models `cosineSimilarity`: `0` when either accumulated norm is zero, otherwise
`dot / (√normA × √normB)`. -/
noncomputable def cosineSimilarity (a b : TokenVec) : ℝ :=
  let shared := sharedKeys a b
  let dot := dotOver a b shared
  let normA := dotOver a a shared
  let normB := dotOver b b shared
  if normA = 0 ∨ normB = 0 then 0
  else (dot : ℝ) / (Real.sqrt (normA : ℝ) * Real.sqrt (normB : ℝ))

/-- Sum all entries of the given vectors into one map (insertion order). -/
def aggTokens (vectors : List TokenVec) : List (String × ℚ) :=
  vectors.foldl (fun totals v => v.foldl (fun m kv => bumpAssoc m kv.1 kv.2) totals) []

/-- Stable-descending sort of map entries by weight
(`sort((a, b) => b[1] - a[1])`). -/
def sortEntriesDesc (entries : List (String × ℚ)) : List (String × ℚ) :=
  entries.mergeSort (fun a b => decide (b.2 ≤ a.2))

/-- Models `topTokensForCluster`: sum the member vectors, sort entries descending by
weight, take the first `take` tokens. -/
def topTokensForCluster (vectors : List TokenVec) (take : ℕ) : List String :=
  ((sortEntriesDesc (aggTokens vectors)).take take).map Prod.fst

/-- The per-slug weights used by `buildLabel`:
`keywordHits + bigramHits × 2` summed over all members' topic hits. -/
def labelWeights (scores : List ThreadScore) : List (String × ℚ) :=
  scores.foldl
    (fun tokens score =>
      score.feature.topicHits.foldl
        (fun m hit => bumpAssoc m hit.slug ((hit.keywordHits : ℚ) + (hit.bigramHits : ℚ) * 2))
        tokens)
    []

/-- The separator of two-token labels (the literal bytes in the source). -/
def labelSep : String := " Â· "

/-- Models `buildLabel`: "general" for no scores or no tokens, the single token, or
the two heaviest tokens joined by the separator. -/
def buildLabel (scores : List ThreadScore) : String :=
  if scores.length = 0 then "general"
  else
    match sortEntriesDesc (labelWeights scores) with
    | t₀ :: t₁ :: _ => t₀.1 ++ labelSep ++ t₁.1
    | [t₀] => t₀.1
    | [] => "general"

/-- One unit of the greedy pass: original index, score, vector. -/
abbrev ClusterUnit := ℕ × ThreadScore × TokenVec

/-- The greedy single pass of `analyze`: the first unvisited unit seeds a
cluster and absorbs every later unvisited unit whose cosine similarity to
the seed vector is ≥ 0.2.  `fuel` bounds the recursion and is at least the
list length at every call site. -/
noncomputable def clusterPass : ℕ → List ClusterUnit → List ThreadCluster
  | _, [] => []
  | 0, _ :: _ => []
  | fuel + 1, (i, seed, seedVector) :: rest =>
      let isClose : ClusterUnit → Bool :=
        fun u => decide ((0.2 : ℝ) ≤ cosineSimilarity seedVector u.2.2)
      let absorbed := rest.filter isClose
      let remaining := rest.filter (fun u => !isClose u)
      let members := seed :: absorbed.map (fun u => u.2.1)
      { id := "cluster-" ++ toString i
        label := buildLabel members
        members := members
        topTokens := topTokensForCluster (seedVector :: absorbed.map (fun u => u.2.2)) 2 }
        :: clusterPass fuel remaining

/-- Models `analyze`: empty analysis for empty input; otherwise build vectors,
run the greedy pass, and aggregate the global top tokens. -/
noncomputable def analyze (scores : List ThreadScore) : ThemeAnalysis :=
  if scores.length = 0 then ⟨[], []⟩
  else
    let vectors := scores.map buildVector
    let units := (scores.zip vectors).enum
    let globalCounts := aggTokens vectors
    { clusters := clusterPass units.length units
      globalTopTokens := (sortEntriesDesc globalCounts).take 10 }

end ThemeClusterService

/-! ### String utilities for the summarizer

The summarizer's regular-expression passes are modelled as character-list
scanners.  JavaScript `\s` is modelled by its ASCII subset, `String#length`
and `slice` by code-point count (they agree on the ASCII/BMP data the
claims exercise), and `toLowerCase` by ASCII lowercasing (non-ASCII
letters are erased to spaces by `normalize` in both readings). -/

def backtick : Char := Char.ofNat 96

def jsWs (c : Char) : Bool :=
  c = ' ' || c = '\t' || c = '\n' || c = '\r' || c = '\x0b' || c = '\x0c'

/-- Models `replace(/\s+/g, ' ')`: collapse every whitespace run to one space.
`prevWs` records whether the previous character was part of a run. -/
def collapseWs (prevWs : Bool) : List Char → List Char
  | [] => []
  | c :: rest =>
      if jsWs c then
        if prevWs then collapseWs true rest else ' ' :: collapseWs true rest
      else c :: collapseWs false rest

def jsTrimChars (l : List Char) : List Char :=
  ((l.dropWhile jsWs).reverse.dropWhile jsWs).reverse

/-- JavaScript `String#trim`. -/
def jsTrim (s : String) : String := ⟨jsTrimChars s.data⟩

/-- JavaScript `String#length` (code points; equal to UTF-16 units on the
BMP data considered here). -/
def jsLength (s : String) : ℕ := s.data.length

def toLowerStr (s : String) : String := ⟨s.data.map Char.toLower⟩

/-- Does `pat` occur as a contiguous substring? (`RegExp#test` for a
fixed-word pattern.) -/
def isSubChars (pat : List Char) : List Char → Bool
  | [] => pat.isEmpty
  | c :: rest => pat.isPrefixOf (c :: rest) || isSubChars pat rest

def containsSub (s pat : String) : Bool := isSubChars pat.data s.data

namespace Summarizer

/-- Scan for the closing triple backtick; return the remainder after it. -/
def findFenceClose : List Char → Option (List Char)
  | [] => none
  | c :: rest =>
      if c = backtick ∧ rest.take 2 = [backtick, backtick] then some (rest.drop 2)
      else findFenceClose rest

/-- Models `replace(/```[\s\S]*?```/g, ' ')`. -/
def stripFences : ℕ → List Char → List Char
  | 0, l => l
  | _, [] => []
  | fuel + 1, c :: rest =>
      if c = backtick ∧ rest.take 2 = [backtick, backtick] then
        match findFenceClose (rest.drop 2) with
        | some rem => ' ' :: stripFences fuel rem
        | none => c :: stripFences fuel rest
      else c :: stripFences fuel rest

/-- Models `replace(/`[^`]+`/g, ' ')`. -/
def stripInlineCode : ℕ → List Char → List Char
  | 0, l => l
  | _, [] => []
  | fuel + 1, c :: rest =>
      if c = backtick then
        let content := rest.takeWhile (fun x => x ≠ backtick)
        let after := rest.drop content.length
        if 0 < content.length ∧ after.take 1 = [backtick] then
          ' ' :: stripInlineCode fuel (after.drop 1)
        else c :: stripInlineCode fuel rest
      else c :: stripInlineCode fuel rest

def splitLinesAux : List Char → List (List Char)
  | [] => [[]]
  | c :: rest =>
      match splitLinesAux rest with
      | [] => [[]]
      | line :: more => if c = '\n' then [] :: line :: more else (c :: line) :: more

/-- Models `replace(/^>.*$/gm, ' ')`: a line starting with `>` becomes a space. -/
def stripQuoteLines (l : List Char) : List Char :=
  List.intercalate ['\n']
    ((splitLinesAux l).map (fun line => if line.take 1 = ['>'] then [' '] else line))

/-- Try to match `https?:\/\/\S+` (case-insensitive) at the head; on
success return the remainder after the match. -/
def matchUrl (l : List Char) : Option (List Char) :=
  if (l.take 4).map Char.toLower = ['h', 't', 't', 'p'] then
    let afterHttp := l.drop 4
    let afterScheme :=
      if (afterHttp.take 1).map Char.toLower = ['s'] then afterHttp.drop 1 else afterHttp
    if afterScheme.take 3 = [':', '/', '/'] then
      let run := (afterScheme.drop 3).takeWhile (fun c => !jsWs c)
      if 0 < run.length then some ((afterScheme.drop 3).drop run.length) else none
    else none
  else none

/-- Models `replace(/https?:\/\/\S+/gi, ' [link] ')`. -/
def stripUrls : ℕ → List Char → List Char
  | 0, l => l
  | _, [] => []
  | fuel + 1, c :: rest =>
      match matchUrl (c :: rest) with
      | some rem => (" [link] ".data) ++ stripUrls fuel rem
      | none => c :: stripUrls fuel rest

/-- Try to match `<@!?\d+>` at the head. -/
def matchMention (l : List Char) : Option (List Char) :=
  if l.take 2 = ['<', '@'] then
    let afterAt := l.drop 2
    let afterBang := if afterAt.take 1 = ['!'] then afterAt.drop 1 else afterAt
    let digits := afterBang.takeWhile Char.isDigit
    if 0 < digits.length ∧ (afterBang.drop digits.length).take 1 = ['>'] then
      some ((afterBang.drop digits.length).drop 1)
    else none
  else none

/-- Models `replace(/<@!?\d+>/g, ' member ')`. -/
def stripMentions : ℕ → List Char → List Char
  | 0, l => l
  | _, [] => []
  | fuel + 1, c :: rest =>
      match matchMention (c :: rest) with
      | some rem => (" member ".data) ++ stripMentions fuel rem
      | none => c :: stripMentions fuel rest

/-- Try to match `<#[^>]+>` at the head. -/
def matchChannel (l : List Char) : Option (List Char) :=
  if l.take 2 = ['<', '#'] then
    let inner := (l.drop 2).takeWhile (fun c => c ≠ '>')
    if 0 < inner.length ∧ ((l.drop 2).drop inner.length).take 1 = ['>'] then
      some (((l.drop 2).drop inner.length).drop 1)
    else none
  else none

/-- Models `replace(/<#[^>]+>/g, ' channel ')`. -/
def stripChannels : ℕ → List Char → List Char
  | 0, l => l
  | _, [] => []
  | fuel + 1, c :: rest =>
      match matchChannel (c :: rest) with
      | some rem => (" channel ".data) ++ stripChannels fuel rem
      | none => c :: stripChannels fuel rest

/-- Models `stripFormatting`: the six replacement passes, whitespace collapse and
trim, in source order. -/
def stripFormatting (content : String) : String :=
  let s₁ := stripFences content.data.length content.data
  let s₂ := stripInlineCode s₁.length s₁
  let s₃ := stripQuoteLines s₂
  let s₄ := stripUrls s₃.length s₃
  let s₅ := stripMentions s₄.length s₄
  let s₆ := stripChannels s₅.length s₅
  ⟨jsTrimChars (collapseWs false s₆)⟩

/-- Models `splitSentences`: cut after every `.`, `!` or `?`; trim each piece and
keep the non-empty ones, with the trimmed tail appended. -/
def splitSentencesAux (buffer : List Char) : List Char → List String
  | [] =>
      let tail := jsTrimChars buffer.reverse
      if tail.length = 0 then [] else [⟨tail⟩]
  | c :: rest =>
      if c = '.' ∨ c = '!' ∨ c = '?' then
        let piece := jsTrimChars (c :: buffer).reverse
        if piece.length = 0 then splitSentencesAux [] rest
        else String.mk piece :: splitSentencesAux [] rest
      else splitSentencesAux (c :: buffer) rest

def splitSentences (content : String) : List String :=
  splitSentencesAux [] content.data

def isTokenChar (c : Char) : Bool :=
  ('a' ≤ c && c ≤ 'z') || ('0' ≤ c && c ≤ '9') || c = '[' || c = ']'

/-- Models `normalize`: lowercase, erase everything but `a-z0-9[]` and whitespace,
collapse whitespace, trim. -/
def normalize (text : String) : String :=
  let lowered := text.data.map Char.toLower
  let erased := lowered.map (fun c => if isTokenChar c || jsWs c then c else ' ')
  ⟨jsTrimChars (collapseWs false erased)⟩

def tokenizeChars : List Char → List (List Char)
  | [] => [[]]
  | c :: rest =>
      match tokenizeChars rest with
      | [] => [[]]
      | tok :: more => if isTokenChar c then (c :: tok) :: more else [] :: tok :: more

/-- Models `tokenize`: split on runs of non-token characters, dropping empties. -/
def tokenize (text : String) : List String :=
  ((tokenizeChars text.data).map String.mk).filter (fun t => t ≠ "")

def strEndsWith (s suffix : String) : Bool := suffix.data.isSuffixOf s.data

def dropRightStr (s : String) (n : ℕ) : String := ⟨s.data.take (s.data.length - n)⟩

/-- The suffix-stripping stemmer (`ing`/`ers`, then `ed`/`es`, then `s`). -/
def stem (token : String) : String :=
  if jsLength token ≤ 4 then token
  else if strEndsWith token "ing" || strEndsWith token "ers" then dropRightStr token 3
  else if strEndsWith token "ed" || strEndsWith token "es" then dropRightStr token 2
  else if strEndsWith token "s" && decide (3 < jsLength token) then dropRightStr token 1
  else token

/-- Adjacent bigrams and trigrams joined with `_`. -/
def buildNgrams (tokens : List String) : List String :=
  (tokens.zip tokens.tail).map (fun p => p.1 ++ "_" ++ p.2) ++
    ((tokens.zip tokens.tail).zip tokens.tail.tail).map
      (fun p => p.1.1 ++ "_" ++ p.1.2 ++ "_" ++ p.2)

end Summarizer

/-! ### The extractive summarizer pipeline -/

structure SentenceDoc where
  id : String
  author : String
  original : String
  normalized : String
  tokens : List String
  ngrams : List String
  tf : List (String × ℚ)
  uniqueTokens : List String
  length : ℕ
  position : ℕ
  timestamp : ℚ
deriving Repr, DecidableEq, Inhabited

structure TokensUsed where
  input : ℕ
  output : ℕ
deriving Repr, DecidableEq

structure ExtractiveSummaryResult where
  summary : String
  tokensUsed : TokensUsed
  cost : ℚ
  selectedIds : List String
deriving Repr, DecidableEq

structure Topic where
  slug : String
  keywords : List String
  bigrams : List String
  boost : ℚ
deriving Repr, DecidableEq

/-- The topic-taxonomy snapshot: `topicService`'s cache, keyed by slug. -/
abbrev Taxonomy := List (String × Topic)

namespace Summarizer

def STOPWORDS : List String :=
  ["a", "about", "after", "again", "against", "all", "am", "an", "and", "any", "are", "as", "at",
   "be", "because", "been", "before", "being", "below", "between", "both", "but", "by", "can",
   "did", "do", "does", "doing", "down", "during", "each", "few", "for", "from", "further",
   "had", "has", "have", "having", "he", "her", "here", "hers", "herself", "him", "himself",
   "his", "how", "i", "if", "in", "into", "is", "it", "its", "itself", "just", "me", "more",
   "most", "my", "myself", "no", "nor", "not", "now", "of", "off", "on", "once", "only", "or",
   "other", "our", "ours", "ourselves", "out", "over", "own", "same", "she", "should", "so",
   "some", "such", "than", "that", "the", "their", "theirs", "them", "themselves", "then",
   "there", "these", "they", "this", "those", "through", "to", "too", "under", "until", "up",
   "very", "was", "we", "were", "what", "when", "where", "which", "while", "who", "whom",
   "why", "with", "you", "your", "yours", "yourself", "yourselves", "ai", "canada", "builds",
   "project", "team"]

def DECISION_WORDS : List String :=
  ["decide", "decided", "approve", "approved", "ship", "shipping", "shipped", "blocked",
   "blocker", "eta", "owner"]

/-- Models `DECISION_REGEX.test`: does any decision word occur as a substring?
(The tested text is already lowercase.) -/
def decisionTest (s : String) : Bool := DECISION_WORDS.any (fun w => containsSub s w)

/-- Process the sentences of one message: build a `SentenceDoc` for every
sentence that survives normalization and token filtering, threading the
global `position` counter (which advances only on a pushed doc). -/
def docsOfSentences (id author : String) (timestamp : ℚ) :
    ℕ → List String → List SentenceDoc × ℕ
  | pos, [] => ([], pos)
  | pos, sentence :: rest =>
      let normalized := normalize sentence
      if normalized = "" then docsOfSentences id author timestamp pos rest
      else
        let tokens := (tokenize normalized).map stem
        let filtered := tokens.filter
          (fun t => decide (2 ≤ jsLength t) && decide (jsLength t ≤ 24) && decide (t ∉ STOPWORDS))
        let ngrams := buildNgrams filtered
        let combined := filtered ++ ngrams
        if combined.length = 0 then docsOfSentences id author timestamp pos rest
        else
          let tf := combined.foldl (fun m t => bumpAssoc m t 1) []
          let doc : SentenceDoc :=
            { id := id
              author := author
              original := jsTrim sentence
              normalized := normalized
              tokens := filtered
              ngrams := ngrams
              tf := tf
              uniqueTokens := firstDedup combined
              length := combined.length
              position := pos
              timestamp := timestamp }
          let next := docsOfSentences id author timestamp (pos + 1) rest
          (doc :: next.1, next.2)

/-- Models `buildSentenceDocs`, threading the position counter across messages. -/
def buildDocsAux : ℕ → List MessageForSummary → List SentenceDoc
  | _, [] => []
  | pos, m :: rest =>
      let step := docsOfSentences m.id m.authorUsername m.timestamp pos
        (splitSentences (stripFormatting m.content))
      step.1 ++ buildDocsAux step.2 rest

def buildSentenceDocs (messages : List MessageForSummary) : List SentenceDoc :=
  buildDocsAux 0 messages

/-- Models `buildDocumentFrequency`: count, per token, the docs containing it. -/
def buildDocumentFrequency (docs : List SentenceDoc) : List (String × ℚ) :=
  docs.foldl (fun df doc => doc.uniqueTokens.foldl (fun m t => bumpAssoc m t 1) df) []

/-- Models `buildTopicTokens`: stemmed tokens of keywords, bigrams and the topic
label, as a set. -/
def buildTopicTokens (keywords bigrams : List String) (topic : String) : List String :=
  (keywords ++ bigrams ++ [topic]).foldl
    (fun acc entry => (tokenize (toLowerStr entry)).foldl (fun a tok => insertUniq a (stem tok)) acc)
    []

/-- Models `computeSentenceScore`: TF-IDF with topic boost, plus positional,
decision, numeral and link bonuses. -/
noncomputable def computeSentenceScore (doc : SentenceDoc) (docFreq : List (String × ℚ))
    (totalDocs : ℕ) (topicTokens : List String) (index total : ℕ) : ℝ :=
  let base : ℝ := doc.tf.foldl
    (fun s kv =>
      let tf : ℝ := (kv.2 : ℝ) / (doc.length : ℝ)
      let df : ℚ := (docFreq.lookup kv.1).getD 1
      let idf : ℝ := Real.log (((totalDocs : ℝ) + 1) / ((df : ℝ) + 1)) + 1
      let topicBoost : ℝ := if kv.1 ∈ topicTokens then 1.2 else 1
      s + tf * idf * topicBoost)
    0
  let s₁ := if index ≤ 2 then base + 0.2 else base
  let s₂ :=
    if decisionTest doc.normalized then
      s₁ + 0.6 + (if total - 2 ≤ index then 0.3 else 0)
    else s₁
  let s₃ := if doc.original.data.any Char.isDigit then s₂ + 0.2 else s₂
  if containsSub doc.normalized "[link]" then s₃ + 0.2 else s₃

/-- Models `maxSimilarity`: the largest Jaccard overlap between `doc` and any
already-selected doc (0 for none). -/
def maxSimilarity (doc : SentenceDoc) (others : List SentenceDoc) : ℚ :=
  others.foldl
    (fun mx other =>
      let overlap : ℚ := ((doc.uniqueTokens.filter (fun t => t ∈ other.uniqueTokens)).length : ℚ)
      let union : ℕ := (firstDedup (doc.uniqueTokens ++ other.uniqueTokens)).length
      let denom : ℚ := if union = 0 then 1 else (union : ℚ)
      let similarity := overlap / denom
      if mx < similarity then similarity else mx)
    0

/-- The marginal-relevance value of candidate `c` against `selected`. -/
noncomputable def mmrOf (docs : List SentenceDoc) (scores : List ℝ) (selected : List ℕ)
    (c : ℕ) : ℝ :=
  0.72 * scores.getD c 0 -
    (1 - 0.72) * (maxSimilarity (docs.getD c default) (selected.map (fun i => docs.getD i default)) : ℝ)

/-- The arg-max scan of the candidate loop (`if (mmr > bestScore)` keeps the
earlier candidate on ties). -/
noncomputable def pickBest (f : ℕ → ℝ) : ℕ → List ℕ → ℕ
  | best, [] => best
  | best, c :: cs => if f best < f c then pickBest f c cs else pickBest f best cs

/-- The `while` loop of `selectByMMR`: pick the best remaining candidate,
move it from `candidates` to `selected`, stop at `maxItems`. -/
noncomputable def mmrLoop (docs : List SentenceDoc) (scores : List ℝ) (maxItems : ℕ) :
    ℕ → List ℕ → List ℕ → List ℕ
  | 0, _, selected => selected
  | fuel + 1, candidates, selected =>
      match candidates with
      | [] => selected
      | c₀ :: cs =>
          if maxItems ≤ selected.length then selected
          else
            let best := pickBest (mmrOf docs scores selected) c₀ cs
            mmrLoop docs scores maxItems fuel ((c₀ :: cs).erase best) (selected ++ [best])

/-- Models `selectByMMR`: candidates are the score indices stable-sorted descending
by score; the result is re-sorted ascending. -/
noncomputable def selectByMMR (docs : List SentenceDoc) (scores : List ℝ) (maxItems : ℕ) :
    List ℕ :=
  let candidates := (List.range scores.length).mergeSort
    (fun i j => decide (scores.getD j 0 ≤ scores.getD i 0))
  (mmrLoop docs scores maxItems scores.length candidates []).mergeSort
    (fun i j => decide (i ≤ j))

/-- The accumulation loop of `enforceCharacterLimit`. -/
def enforceAux (docs : List SentenceDoc) (limit : ℕ) :
    List ℕ → List SentenceDoc → ℕ → List SentenceDoc
  | [], chosen, _ => chosen
  | index :: rest, chosen, total =>
      let candidate := docs.getD index default
      let projected := total + jsLength candidate.original
      if 4 ≤ chosen.length then chosen
      else if limit < projected ∧ 0 < chosen.length then chosen
      else enforceAux docs limit rest (chosen ++ [candidate]) projected

/-- Models `enforceCharacterLimit`: accept selected docs in order until 4 are
accumulated or the running character total would exceed `limit` (the first
accepted doc is exempt). -/
def enforceCharacterLimit (docs : List SentenceDoc) (selected : List ℕ) (limit : ℕ) :
    List SentenceDoc :=
  enforceAux docs limit selected [] 0

/-- Models `formatBullet`: collapse whitespace, trim, cap the preview at 180
characters (ellipsis after 177), prefix with `• author: `. -/
def formatBullet (sentence author : String) : String :=
  let trimmed := jsTrimChars (collapseWs false sentence.data)
  let preview : List Char :=
    if 180 < trimmed.length then trimmed.take 177 ++ "…".data else trimmed
  "• " ++ author ++ ": " ++ String.mk preview

def NO_DISCUSSION : String := "No notable discussion captured in this window."

def formatSummary (sentences : List SentenceDoc) : ExtractiveSummaryResult :=
  let bullets := sentences.map (fun s => formatBullet s.original s.author)
  let joined := String.intercalate "\n" bullets
  { summary := if joined = "" then NO_DISCUSSION else joined
    tokensUsed := ⟨0, 0⟩
    cost := 0
    selectedIds := sentences.map (fun s => s.id) }

def emptyResult : ExtractiveSummaryResult :=
  { summary := NO_DISCUSSION, tokensUsed := ⟨0, 0⟩, cost := 0, selectedIds := [] }

/-- The raw-message fallback (`this.fallback(messages)` in the source). -/
def fallback (messages : List MessageForSummary) : ExtractiveSummaryResult :=
  let top := messages.take (min 3 messages.length)
  let bullets := top.map (fun m => formatBullet m.content m.authorUsername)
  let joined := String.intercalate "\n" bullets
  { summary := if joined = "" then NO_DISCUSSION else joined
    tokensUsed := ⟨0, 0⟩
    cost := 0
    selectedIds := top.map (fun m => m.id) }

/-- Models `summarize`: the full extractive pipeline.  `tax` is the topic-taxonomy
snapshot behind `topicService.find`. -/
noncomputable def summarize (tax : Taxonomy) (messages : List MessageForSummary)
    (topic : String) : ExtractiveSummaryResult :=
  if messages.length = 0 then emptyResult
  else
    let sentences := buildSentenceDocs messages
    if sentences.length = 0 then emptyResult
    else
      let topicInfo := tax.lookup (toLowerStr topic)
      let topicTokens := buildTopicTokens ((topicInfo.map Topic.keywords).getD [])
        ((topicInfo.map Topic.bigrams).getD []) topic
      let docFreq := buildDocumentFrequency sentences
      let scores := sentences.enum.map
        (fun p => computeSentenceScore p.2 docFreq sentences.length topicTokens p.1 sentences.length)
      let selected := selectByMMR sentences scores 4
      if selected.length = 0 then fallback messages
      else formatSummary (enforceCharacterLimit sentences selected 380)

end Summarizer

/-! ### Concrete sample inputs (used to instantiate universally quantified
theorems on closed data) -/

/-- A sample thread feature. -/
def sampleFeature : ThreadFeature :=
  { key := "thread-1"
    guildId := "guild-1"
    channelId := "channel-1"
    uniqueParticipants := 4
    messageCount := 5
    reactionWeighted := 2
    topicHits := [{ slug := "policy", keywordHits := 1, bigramHits := 0, boost := 1 }]
    linkCount := 0
    decisionVerbHits := 1
    hasLinks := false
    firstMessageAt := 0
    lastMessageAt := 0
    matchedKeywords := ["policy"]
    messages := [] }

/-- A thread score whose vector holds only the token "alpha" (its single
matched keyword), with no topic hits at all. -/
def alphaScore : ThreadScore :=
  { feature :=
      { key := "thread-a"
        guildId := "guild-1"
        channelId := "channel-1"
        uniqueParticipants := 1
        messageCount := 1
        reactionWeighted := 0
        topicHits := []
        linkCount := 0
        decisionVerbHits := 0
        hasLinks := false
        firstMessageAt := 0
        lastMessageAt := 0
        matchedKeywords := ["alpha"]
        messages := [] }
    score := 0
    breakdown := ⟨0, 0, 0, 0, 0, 0, 0⟩ }

/-- Like `alphaScore` but carrying only the token "beta": its vector is
disjoint from `alphaScore`'s. -/
def betaScore : ThreadScore :=
  { feature :=
      { key := "thread-b"
        guildId := "guild-1"
        channelId := "channel-1"
        uniqueParticipants := 1
        messageCount := 1
        reactionWeighted := 0
        topicHits := []
        linkCount := 0
        decisionVerbHits := 0
        hasLinks := false
        firstMessageAt := 0
        lastMessageAt := 0
        matchedKeywords := ["beta"]
        messages := [] }
    score := 0
    breakdown := ⟨0, 0, 0, 0, 0, 0, 0⟩ }

/-- A message whose only sentence is filtered away entirely (its single
token "a" is shorter than 2 characters). -/
def tinyMessage : MessageForSummary :=
  { id := "m1", authorUsername := "alice", content := "a", timestamp := 0, url := "" }

/-- A message producing exactly two sentence docs, both with id "m2". -/
def twoSentenceMessage : MessageForSummary :=
  { id := "m2", authorUsername := "bob", content := "alpha beta. alpha gamma.", timestamp := 0,
    url := "" }

/-- The label that claim C8 prescribes: the top-token list joined by the
separator, the single token, or "general".  (Modelled from the claim's
wording, for comparison against the implementation's `buildLabel`.) -/
def labelOfTopTokens : List String → String
  | [] => "general"
  | [t] => t
  | t₀ :: t₁ :: _ => t₀ ++ ThemeClusterService.labelSep ++ t₁

/-! ## Theorems -/

/-! ### Association-list lemmas -/

theorem lookup_mem {β : Type} {l : List (String × β)} {k : String} {v : β}
    (h : l.lookup k = some v) : (k, v) ∈ l := by
  induction l with
  | nil => simp [List.lookup] at h
  | cons hd tl ih =>
      rw [List.lookup] at h
      by_cases hk : k = hd.1
      · subst hk
        simp at h
        subst h
        exact List.mem_cons_self _ _
      · have : (k == hd.1) = false := by simpa using hk
        rw [this] at h
        exact List.mem_cons_of_mem _ (ih h)

theorem mem_setAssoc {β : Type} {l : List (String × β)} {k k' : String} {v v' : β}
    (h : (k', v') ∈ setAssoc l k v) : (k', v') = (k, v) ∨ (k', v') ∈ l := by
  induction l with
  | nil => simpa [setAssoc] using h
  | cons hd tl ih =>
      rw [setAssoc] at h
      by_cases hk : hd.1 = k
      · rw [if_pos hk] at h
        rcases List.mem_cons.mp h with h₁ | h₂
        · left
          rw [h₁, ← hk]
        · right
          exact List.mem_cons_of_mem _ h₂
      · rw [if_neg hk] at h
        rcases List.mem_cons.mp h with h₁ | h₂
        · right
          rw [h₁]
          exact List.mem_cons_self _ _
        · rcases ih h₂ with h₃ | h₄
          · exact Or.inl h₃
          · exact Or.inr (List.mem_cons_of_mem _ h₄)

theorem mem_removeAssoc {β : Type} {l : List (String × β)} {k k' : String} {v' : β}
    (h : (k', v') ∈ removeAssoc l k) : (k', v') ∈ l := by
  induction l with
  | nil => simp [removeAssoc] at h
  | cons hd tl ih =>
      rw [removeAssoc] at h
      by_cases hk : hd.1 = k
      · rw [if_pos hk] at h
        exact List.mem_cons_of_mem _ h
      · rw [if_neg hk] at h
        rcases List.mem_cons.mp h with h₁ | h₂
        · rw [h₁]
          exact List.mem_cons_self _ _
        · exact List.mem_cons_of_mem _ (ih h₂)

/-! ### Guild configuration: claim C9 -/

namespace GuildFeatureConfigService

/-- Entry-level range invariant (quantifies over all stored entries). -/
def EntriesInRange (st : GuildConfigState) : Prop :=
  ∀ g config, (g, config) ∈ st.cache →
    ∀ c q, (c, q) ∈ config.channelMultipliers → 0 ≤ q ∧ q ≤ 5

theorem sanitizeWeight_nonneg (w : Option ℚ) : 0 ≤ sanitizeWeight w :=
  le_max_left 0 _

theorem sanitizeWeight_le_five (w : Option ℚ) : sanitizeWeight w ≤ 5 :=
  max_le (by norm_num) (min_le_left 5 _)

theorem entriesInRange_applyOp {st : GuildConfigState} (op : ConfigOp)
    (h : EntriesInRange st) : EntriesInRange (applyOp st op) := by
  cases op with
  | set g c w =>
      intro g' config' hmem c' q' hq
      rcases mem_setAssoc hmem with h₁ | h₂
      · have hconfig : config' =
            ⟨setAssoc ((st.cache.lookup g).getD ⟨[]⟩).channelMultipliers c (sanitizeWeight w)⟩ := by
          simpa [applyOp, setChannelMultiplier] using congrArg Prod.snd h₁
        rw [hconfig] at hq
        rcases mem_setAssoc hq with h₃ | h₄
        · have : q' = sanitizeWeight w := congrArg Prod.snd h₃
          rw [this]
          exact ⟨sanitizeWeight_nonneg w, sanitizeWeight_le_five w⟩
        · rcases hcase : st.cache.lookup g with _ | config₀
          · rw [hcase] at h₄
            simp at h₄
          · rw [hcase] at h₄
            exact h g config₀ (lookup_mem hcase) c' q' h₄
      · exact h g' config' h₂ c' q' hq
  | clear g c =>
      intro g' config' hmem c' q' hq
      rw [applyOp, clearChannelMultiplier] at hmem
      rcases hcase : st.cache.lookup g with _ | config₀
      · rw [hcase] at hmem
        exact h g' config' hmem c' q' hq
      · rw [hcase] at hmem
        rcases mem_setAssoc hmem with h₁ | h₂
        · have hconfig : config' = ⟨removeAssoc config₀.channelMultipliers c⟩ :=
            congrArg Prod.snd h₁
          rw [hconfig] at hq
          exact h g config₀ (lookup_mem hcase) c' q' (mem_removeAssoc hq)
        · exact h g' config' h₂ c' q' hq

theorem entriesInRange_foldl (ops : List ConfigOp) :
    ∀ st : GuildConfigState, EntriesInRange st → EntriesInRange (ops.foldl applyOp st) := by
  induction ops with
  | nil => exact fun st h => h
  | cons op rest ih =>
      intro st h
      exact ih (applyOp st op) (entriesInRange_applyOp op h)

theorem entriesInRange_applyOps (ops : List ConfigOp) : EntriesInRange (applyOps ops) := by
  rw [applyOps]
  refine entriesInRange_foldl ops initState ?_
  intro g config hmem
  simp [initState] at hmem

theorem weightsInRange_of_entries {st : GuildConfigState} (h : EntriesInRange st) :
    WeightsInRange st := by
  intro g config hg c q hc
  exact h g config (lookup_mem hg) c q (lookup_mem hc)

end GuildFeatureConfigService

/-- C9: a channel id absent from a guild's multiplier map (or a guild with
no config) gets multiplier exactly 1; every multiplier value stored by the
write operations lies in [0, 5]; a non-finite write input is replaced
by 1. -/
theorem C9_channel_multiplier_default_and_range :
    (∀ st g c, st.cache.lookup g = none →
      GuildFeatureConfigService.getChannelMultiplier st g c = 1) ∧
    (∀ st g c config, st.cache.lookup g = some config →
      config.channelMultipliers.lookup c = none →
      GuildFeatureConfigService.getChannelMultiplier st g c = 1) ∧
    (∀ ops, GuildFeatureConfigService.WeightsInRange (GuildFeatureConfigService.applyOps ops)) ∧
    GuildFeatureConfigService.sanitizeWeight none = 1 := by
  refine ⟨?_, ?_, ?_, ?_⟩
  · intro st g c h
    rw [GuildFeatureConfigService.getChannelMultiplier, h]
  · intro st g c config hg hc
    rw [GuildFeatureConfigService.getChannelMultiplier, hg]
    simp [hc]
  · intro ops
    exact GuildFeatureConfigService.weightsInRange_of_entries
      (GuildFeatureConfigService.entriesInRange_applyOps ops)
  · rfl

theorem C9_channel_multiplier_default_and_range_witness :
    GuildFeatureConfigService.getChannelMultiplier GuildFeatureConfigService.initState
      "guild" "channel" = 1 ∧
    GuildFeatureConfigService.WeightsInRange (GuildFeatureConfigService.applyOps
      [.set "g" "c" (some 7), .set "g" "d" none, .clear "g" "c"]) :=
  ⟨C9_channel_multiplier_default_and_range.1 GuildFeatureConfigService.initState
      "guild" "channel" rfl,
   C9_channel_multiplier_default_and_range.2.2.1
      [.set "g" "c" (some 7), .set "g" "d" none, .clear "g" "c"]⟩

/-! ### Thread scoring: claims C1 and C7 -/

theorem foldl_add_map {α : Type} (w : α → ℚ) (l : List α) :
    ∀ a : ℚ, l.foldl (fun t x => t + w x) a = a + (l.map w).sum := by
  induction l with
  | nil => intro a; simp
  | cons x xs ih =>
      intro a
      rw [List.foldl_cons, ih (a + w x), List.map_cons, List.sum_cons]
      ring

theorem computeTopicHitScore_eq_sum (feature : ThreadFeature) :
    ThreadScoringService.computeTopicHitScore feature =
      (feature.topicHits.map
        (fun hit => ((hit.keywordHits : ℚ) * 2 + (hit.bigramHits : ℚ) * 4) * hit.boost)).sum := by
  rw [ThreadScoringService.computeTopicHitScore, foldl_add_map, zero_add]

theorem mem_scoreThreads {cfg : GuildConfigState} {guildId : String} {now : ℚ}
    {features : List ThreadFeature} {ts : ThreadScore}
    (h : ts ∈ ThreadScoringService.scoreThreads cfg guildId now features) :
    ∃ f ∈ features, ts = ThreadScoringService.scoreOne cfg guildId now f := by
  rw [ThreadScoringService.scoreThreads] at h
  rcases List.mem_map.mp (List.mem_mergeSort.mp h) with ⟨f, hf, hts⟩
  exact ⟨f, hf, hts.symm⟩

/-- C1: every `ThreadScore` returned by `scoreThreads` satisfies
`score = (participants + messageCount + reactions + topicHits + links +
decisions − timeDecay) × multiplier`, with each breakdown field holding
exactly its weighted term. -/
theorem C1_score_breakdown (cfg : GuildConfigState) (guildId : String) (now : ℚ)
    (features : List ThreadFeature) (ts : ThreadScore)
    (h : ts ∈ ThreadScoringService.scoreThreads cfg guildId now features) :
    ts.score =
      (ts.breakdown.participants + ts.breakdown.messageCount + ts.breakdown.reactions +
        ts.breakdown.topicHits + ts.breakdown.links + ts.breakdown.decisions -
        ts.breakdown.timeDecay) *
      (GuildFeatureConfigService.getChannelMultiplier cfg guildId ts.feature.channelId : ℝ) ∧
    ts.breakdown.participants = 1.2 * (ts.feature.uniqueParticipants : ℝ) ∧
    ts.breakdown.messageCount = Real.log (1 + (ts.feature.messageCount : ℝ)) ∧
    ts.breakdown.reactions = 0.8 * (ts.feature.reactionWeighted : ℝ) ∧
    ts.breakdown.topicHits = 1.3 *
      (((ts.feature.topicHits.map
        (fun hit => ((hit.keywordHits : ℚ) * 2 + (hit.bigramHits : ℚ) * 4) * hit.boost)).sum : ℚ) : ℝ) ∧
    ts.breakdown.links = 1.1 * (if ts.feature.hasLinks then 2 else 0) ∧
    ts.breakdown.decisions = 1.4 * (ts.feature.decisionVerbHits : ℝ) * 3 ∧
    ts.breakdown.timeDecay =
      max 0 (((now : ℝ) - (ts.feature.lastMessageAt : ℝ)) / (1000 * 60 * 60) / 72) := by
  rcases mem_scoreThreads h with ⟨f, _, rfl⟩
  refine ⟨rfl, rfl, rfl, rfl, ?_, rfl, rfl, rfl⟩
  show (1.3 : ℝ) * ((ThreadScoringService.computeTopicHitScore f : ℚ) : ℝ) =
    1.3 * (((f.topicHits.map
      (fun hit => ((hit.keywordHits : ℚ) * 2 + (hit.bigramHits : ℚ) * 4) * hit.boost)).sum : ℚ) : ℝ)
  rw [computeTopicHitScore_eq_sum]

theorem C1_score_breakdown_witness :
    (ThreadScoringService.scoreOne GuildFeatureConfigService.initState "guild-1" 0
        sampleFeature).score =
      ((ThreadScoringService.scoreOne GuildFeatureConfigService.initState "guild-1" 0
          sampleFeature).breakdown.participants +
        (ThreadScoringService.scoreOne GuildFeatureConfigService.initState "guild-1" 0
          sampleFeature).breakdown.messageCount +
        (ThreadScoringService.scoreOne GuildFeatureConfigService.initState "guild-1" 0
          sampleFeature).breakdown.reactions +
        (ThreadScoringService.scoreOne GuildFeatureConfigService.initState "guild-1" 0
          sampleFeature).breakdown.topicHits +
        (ThreadScoringService.scoreOne GuildFeatureConfigService.initState "guild-1" 0
          sampleFeature).breakdown.links +
        (ThreadScoringService.scoreOne GuildFeatureConfigService.initState "guild-1" 0
          sampleFeature).breakdown.decisions -
        (ThreadScoringService.scoreOne GuildFeatureConfigService.initState "guild-1" 0
          sampleFeature).breakdown.timeDecay) *
      (GuildFeatureConfigService.getChannelMultiplier GuildFeatureConfigService.initState
        "guild-1"
        (ThreadScoringService.scoreOne GuildFeatureConfigService.initState "guild-1" 0
          sampleFeature).feature.channelId : ℝ) :=
  (C1_score_breakdown GuildFeatureConfigService.initState "guild-1" 0 [sampleFeature]
    (ThreadScoringService.scoreOne GuildFeatureConfigService.initState "guild-1" 0 sampleFeature)
    (by
      rw [ThreadScoringService.scoreThreads, List.map_cons, List.map_nil,
        List.mergeSort_singleton]
      exact List.mem_singleton.mpr rfl)).1

theorem descBy_trans {α β : Type} [LinearOrder β] (k : α → β) : ∀ a b c : α,
    decide (k b ≤ k a) → decide (k c ≤ k b) → decide (k c ≤ k a) := by
  intro a b c hab hbc
  exact decide_eq_true (le_trans (of_decide_eq_true hbc) (of_decide_eq_true hab))

theorem descBy_total {α β : Type} [LinearOrder β] (k : α → β) : ∀ a b : α,
    decide (k b ≤ k a) || decide (k a ≤ k b) := by
  intro a b
  rcases le_total (k b) (k a) with h | h
  · simp [h]
  · simp [h]

/-- The stable descending sort by a real-valued key leaves the elements of
any one key level in input order (stated via `filter`). -/
theorem filter_mergeSort_descBy {α : Type} (k : α → ℝ) (l : List α) (r : ℝ) :
    (l.mergeSort (fun a b => decide (k b ≤ k a))).filter (fun x => decide (k x = r)) =
      l.filter (fun x => decide (k x = r)) := by
  have hB : ∀ x ∈ l.filter (fun x => decide (k x = r)), k x = r := by
    intro x hx
    exact of_decide_eq_true (List.mem_filter.mp hx).2
  have hpw : (l.filter (fun x => decide (k x = r))).Pairwise
      (fun a b => decide (k b ≤ k a) = true) := by
    refine List.pairwise_of_forall_mem_list ?_
    intro a ha b hb
    exact decide_eq_true (le_of_eq (by rw [hB b hb, hB a ha]))
  have hsub : List.Sublist (l.filter (fun x => decide (k x = r)))
      (l.mergeSort (fun a b => decide (k b ≤ k a))) :=
    List.sublist_mergeSort (descBy_trans k) (descBy_total k) hpw (List.filter_sublist l)
  have hfix : (l.filter (fun x => decide (k x = r))).filter (fun x => decide (k x = r)) =
      l.filter (fun x => decide (k x = r)) :=
    List.filter_eq_self.mpr (fun a ha => (List.mem_filter.mp ha).2)
  have hsub' : List.Sublist (l.filter (fun x => decide (k x = r)))
      ((l.mergeSort (fun a b => decide (k b ≤ k a))).filter (fun x => decide (k x = r))) := by
    have h₂ := hsub.filter (fun x => decide (k x = r))
    rwa [hfix] at h₂
  refine (hsub'.eq_of_length ?_).symm
  rw [← List.countP_eq_length_filter, ← List.countP_eq_length_filter]
  exact ((List.mergeSort_perm l (fun a b => decide (k b ≤ k a))).countP_eq
    (fun x => decide (k x = r))).symm

/-- C7: `scoreThreads` output is sorted descending by score, and the sort is
stable: entries of any one score value keep the relative order of the
corresponding features in the input list. -/
theorem C7_sorted_descending_stable (cfg : GuildConfigState) (guildId : String) (now : ℚ)
    (features : List ThreadFeature) :
    (ThreadScoringService.scoreThreads cfg guildId now features).Pairwise
      (fun a b => b.score ≤ a.score) ∧
    ∀ r : ℝ,
      (ThreadScoringService.scoreThreads cfg guildId now features).filter
          (fun ts => decide (ts.score = r)) =
        (features.map (ThreadScoringService.scoreOne cfg guildId now)).filter
          (fun ts => decide (ts.score = r)) := by
  constructor
  · have h := @List.sorted_mergeSort ThreadScore
      (fun a b : ThreadScore => decide (b.score ≤ a.score))
      (descBy_trans (fun ts : ThreadScore => ts.score))
      (descBy_total (fun ts : ThreadScore => ts.score))
      (features.map (ThreadScoringService.scoreOne cfg guildId now))
    rw [ThreadScoringService.scoreThreads]
    exact h.imp (fun hab => of_decide_eq_true hab)
  · intro r
    rw [ThreadScoringService.scoreThreads]
    exact filter_mergeSort_descBy (fun ts : ThreadScore => ts.score)
      (features.map (ThreadScoringService.scoreOne cfg guildId now)) r

/-! ### Theme clustering: claims C2, C6 and C8 -/

theorem clusterPass_join_perm :
    ∀ (fuel : ℕ) (l : List ThemeClusterService.ClusterUnit), l.length ≤ fuel →
    List.Perm
      (((ThemeClusterService.clusterPass fuel l).map (fun c => c.members)).flatten)
      (l.map (fun u => u.2.1)) := by
  intro fuel
  induction fuel with
  | zero =>
      intro l h
      have : l = [] := List.eq_nil_of_length_eq_zero (Nat.le_zero.mp h)
      subst this
      simp [ThemeClusterService.clusterPass]
  | succ fuel ih =>
      intro l h
      match l with
      | [] => simp [ThemeClusterService.clusterPass]
      | (i, s, v) :: rest =>
          simp only [ThemeClusterService.clusterPass, List.map_cons, List.flatten_cons,
            List.cons_append]
          have hlen : (rest.filter (fun u =>
              !decide ((0.2 : ℝ) ≤ ThemeClusterService.cosineSimilarity v u.2.2))).length ≤
              fuel :=
            le_trans (List.length_filter_le _ _) (Nat.succ_le_succ_iff.mp (by simpa using h))
          have hrec := ih _ hlen
          refine List.Perm.cons s ?_
          refine List.Perm.trans (List.Perm.append_left _ hrec) ?_
          rw [← List.map_append]
          exact List.Perm.map _ (List.filter_append_perm _ rest)

/-- C2: the clusters produced by `analyze` partition the input: the
concatenation of all members lists is a permutation of the input list
(every input element appears exactly once). -/
theorem C2_clusters_partition (scores : List ThreadScore) :
    List.Perm
      (((ThemeClusterService.analyze scores).clusters.map (fun c => c.members)).flatten)
      scores := by
  by_cases hempty : scores.length = 0
  · have : scores = [] := List.eq_nil_of_length_eq_zero hempty
    subst this
    simp [ThemeClusterService.analyze]
  · have hclusters : (ThemeClusterService.analyze scores).clusters =
        ThemeClusterService.clusterPass
          ((scores.zip (scores.map ThemeClusterService.buildVector)).enum).length
          ((scores.zip (scores.map ThemeClusterService.buildVector)).enum) := by
      rw [ThemeClusterService.analyze, if_neg hempty]
    rw [hclusters]
    have hperm := clusterPass_join_perm
      ((scores.zip (scores.map ThemeClusterService.buildVector)).enum).length
      ((scores.zip (scores.map ThemeClusterService.buildVector)).enum)
      (le_refl _)
    have hmap : ((scores.zip (scores.map ThemeClusterService.buildVector)).enum).map
        (fun u => u.2.1) = scores := by
      have h₁ : ((scores.zip (scores.map ThemeClusterService.buildVector)).enum).map
          (fun u => u.2.1) =
          (((scores.zip (scores.map ThemeClusterService.buildVector)).enum).map
            Prod.snd).map Prod.fst := by
        rw [List.map_map]
        rfl
      rw [h₁, List.enum_map_snd]
      exact List.map_fst_zip _ _ (by rw [List.length_map])
    rw [hmap] at hperm
    exact hperm

theorem mem_firstDedupAux {x : String} :
    ∀ (l seen : List String), x ∈ firstDedupAux seen l ↔ x ∈ l ∧ x ∉ seen := by
  intro l
  induction l with
  | nil => intro seen; simp [firstDedupAux]
  | cons k rest ih =>
      intro seen
      rw [firstDedupAux]
      by_cases hk : k ∈ seen
      · rw [if_pos hk, ih]
        constructor
        · rintro ⟨hx, hs⟩
          exact ⟨List.mem_cons_of_mem _ hx, hs⟩
        · rintro ⟨hx, hs⟩
          rcases List.mem_cons.mp hx with rfl | hx'
          · exact absurd hk hs
          · exact ⟨hx', hs⟩
      · rw [if_neg hk]
        simp only [List.mem_cons, ih, List.mem_append, List.mem_singleton]
        by_cases hxk : x = k
        · subst hxk
          tauto
        · tauto

theorem nodup_firstDedupAux : ∀ (l seen : List String), (firstDedupAux seen l).Nodup := by
  intro l
  induction l with
  | nil => intro seen; simp [firstDedupAux]
  | cons k rest ih =>
      intro seen
      rw [firstDedupAux]
      by_cases hk : k ∈ seen
      · rw [if_pos hk]
        exact ih seen
      · rw [if_neg hk]
        refine List.nodup_cons.mpr ⟨?_, ih (seen ++ [k])⟩
        intro hmem
        exact ((mem_firstDedupAux rest (seen ++ [k])).mp hmem).2
          (List.mem_append.mpr (Or.inr (List.mem_singleton.mpr rfl)))

theorem mem_firstDedup {x : String} {l : List String} : x ∈ firstDedup l ↔ x ∈ l := by
  rw [firstDedup, mem_firstDedupAux]
  simp

theorem nodup_firstDedup (l : List String) : (firstDedup l).Nodup :=
  nodup_firstDedupAux l []

theorem toFinset_sharedKeys (a b : TokenVec) :
    (ThemeClusterService.sharedKeys a b).toFinset =
      (a.map Prod.fst).toFinset ∪ (b.map Prod.fst).toFinset := by
  ext x
  simp [ThemeClusterService.sharedKeys, mem_firstDedup]

theorem dotOver_eq_finset (x y : TokenVec) (keys : List String) (h : keys.Nodup) :
    ThemeClusterService.dotOver x y keys =
      ∑ t ∈ keys.toFinset,
        ThemeClusterService.vecGet x t * ThemeClusterService.vecGet y t := by
  rw [ThemeClusterService.dotOver, List.sum_toFinset _ h]

theorem dotOver_sharedKeys (x y a b : TokenVec) :
    ThemeClusterService.dotOver x y (ThemeClusterService.sharedKeys a b) =
      ∑ t ∈ (a.map Prod.fst).toFinset ∪ (b.map Prod.fst).toFinset,
        ThemeClusterService.vecGet x t * ThemeClusterService.vecGet y t := by
  have hnd : (ThemeClusterService.sharedKeys a b).Nodup := nodup_firstDedup _
  rw [dotOver_eq_finset x y _ hnd, toFinset_sharedKeys]

theorem bumpAssoc_entries_nonneg {m : List (String × ℚ)} {k : String} {w : ℚ}
    (hm : ∀ kv ∈ m, 0 ≤ kv.2) (hw : 0 ≤ w) :
    ∀ kv ∈ bumpAssoc m k w, 0 ≤ kv.2 := by
  induction m with
  | nil =>
      intro kv hkv
      rw [bumpAssoc] at hkv
      rcases List.mem_singleton.mp hkv with rfl
      exact hw
  | cons hd tl ih =>
      intro kv hkv
      rw [bumpAssoc] at hkv
      by_cases hk : hd.1 = k
      · rw [if_pos hk] at hkv
        rcases List.mem_cons.mp hkv with rfl | hmem
        · exact add_nonneg (hm hd (List.mem_cons_self _ _)) hw
        · exact hm kv (List.mem_cons_of_mem _ hmem)
      · rw [if_neg hk] at hkv
        rcases List.mem_cons.mp hkv with rfl | hmem
        · exact hm hd (List.mem_cons_self _ _)
        · exact ih (fun kv' h' => hm kv' (List.mem_cons_of_mem _ h')) kv hmem

theorem foldl_entries_nonneg {α : Type} (step : List (String × ℚ) → α → List (String × ℚ))
    (hstep : ∀ m x, (∀ kv ∈ m, 0 ≤ kv.2) → ∀ kv ∈ step m x, 0 ≤ kv.2) :
    ∀ (l : List α) (m : List (String × ℚ)), (∀ kv ∈ m, 0 ≤ kv.2) →
      ∀ kv ∈ l.foldl step m, 0 ≤ kv.2 := by
  intro l
  induction l with
  | nil => intro m hm; exact hm
  | cons x xs ih =>
      intro m hm
      exact ih (step m x) (hstep m x hm)

theorem buildVector_entries_nonneg (s : ThreadScore) :
    ∀ kv ∈ ThemeClusterService.buildVector s, 0 ≤ kv.2 := by
  rw [ThemeClusterService.buildVector]
  refine foldl_entries_nonneg _ ?_ _ _ ?_
  · intro m x hm
    exact bumpAssoc_entries_nonneg hm (by norm_num)
  · refine foldl_entries_nonneg _ ?_ _ _ ?_
    · intro m hit hm
      by_cases hw : ((hit.keywordHits : ℚ) * 2 + (hit.bigramHits : ℚ) * 4) * hit.boost ≤ 0
      · rw [if_pos hw]
        exact hm
      · rw [if_neg hw]
        exact bumpAssoc_entries_nonneg hm (le_of_lt (lt_of_not_le hw))
    · intro kv hkv
      simp at hkv

theorem vecGet_nonneg_of_entries {v : TokenVec} (h : ∀ kv ∈ v, 0 ≤ kv.2) (t : String) :
    0 ≤ ThemeClusterService.vecGet v t := by
  rw [ThemeClusterService.vecGet]
  rcases hcase : v.lookup t with _ | q
  · exact le_refl 0
  · exact h (t, q) (lookup_mem hcase)

theorem vecGet_eq_zero_of_not_mem {v : TokenVec} {t : String}
    (h : t ∉ v.map Prod.fst) : ThemeClusterService.vecGet v t = 0 := by
  rw [ThemeClusterService.vecGet]
  rcases hcase : v.lookup t with _ | q
  · rfl
  · exact absurd (List.mem_map.mpr ⟨(t, q), lookup_mem hcase, rfl⟩) h

theorem norm_shared_eq_own_left (a b : TokenVec) :
    ThemeClusterService.dotOver a a (ThemeClusterService.sharedKeys a b) =
      ∑ t ∈ (a.map Prod.fst).toFinset,
        ThemeClusterService.vecGet a t * ThemeClusterService.vecGet a t := by
  rw [dotOver_sharedKeys a a a b]
  symm
  refine Finset.sum_subset Finset.subset_union_left ?_
  intro x _ hnx
  rw [vecGet_eq_zero_of_not_mem (fun hmem => hnx (List.mem_toFinset.mpr hmem))]
  ring

theorem norm_shared_eq_own_right (a b : TokenVec) :
    ThemeClusterService.dotOver b b (ThemeClusterService.sharedKeys a b) =
      ∑ t ∈ (b.map Prod.fst).toFinset,
        ThemeClusterService.vecGet b t * ThemeClusterService.vecGet b t := by
  rw [dotOver_sharedKeys b b a b]
  symm
  refine Finset.sum_subset Finset.subset_union_right ?_
  intro x _ hnx
  rw [vecGet_eq_zero_of_not_mem (fun hmem => hnx (List.mem_toFinset.mpr hmem))]
  ring

theorem cosineSimilarity_comm (a b : TokenVec) :
    ThemeClusterService.cosineSimilarity a b = ThemeClusterService.cosineSimilarity b a := by
  simp only [ThemeClusterService.cosineSimilarity]
  rw [dotOver_sharedKeys a b a b, dotOver_sharedKeys a a a b, dotOver_sharedKeys b b a b,
    dotOver_sharedKeys b a b a, dotOver_sharedKeys b b b a, dotOver_sharedKeys a a b a,
    Finset.union_comm ((b.map Prod.fst).toFinset) ((a.map Prod.fst).toFinset)]
  refine if_congr or_comm rfl ?_
  rw [show (∑ t ∈ (a.map Prod.fst).toFinset ∪ (b.map Prod.fst).toFinset,
        ThemeClusterService.vecGet a t * ThemeClusterService.vecGet b t) =
      ∑ t ∈ (a.map Prod.fst).toFinset ∪ (b.map Prod.fst).toFinset,
        ThemeClusterService.vecGet b t * ThemeClusterService.vecGet a t from
    Finset.sum_congr rfl (fun t _ => mul_comm _ _)]
  rw [mul_comm (Real.sqrt _) (Real.sqrt _)]

theorem cosineSimilarity_nonneg_le_one {a b : TokenVec}
    (ha : ∀ kv ∈ a, 0 ≤ kv.2) (hb : ∀ kv ∈ b, 0 ≤ kv.2) :
    0 ≤ ThemeClusterService.cosineSimilarity a b ∧
      ThemeClusterService.cosineSimilarity a b ≤ 1 := by
  have hga : ∀ t, 0 ≤ ThemeClusterService.vecGet a t := vecGet_nonneg_of_entries ha
  have hgb : ∀ t, 0 ≤ ThemeClusterService.vecGet b t := vecGet_nonneg_of_entries hb
  simp only [ThemeClusterService.cosineSimilarity]
  rw [dotOver_sharedKeys a b a b, dotOver_sharedKeys a a a b, dotOver_sharedKeys b b a b]
  set U := (a.map Prod.fst).toFinset ∪ (b.map Prod.fst).toFinset with hU
  set dot : ℚ := ∑ t ∈ U, ThemeClusterService.vecGet a t * ThemeClusterService.vecGet b t
    with hdot
  set nA : ℚ := ∑ t ∈ U, ThemeClusterService.vecGet a t * ThemeClusterService.vecGet a t
    with hnA
  set nB : ℚ := ∑ t ∈ U, ThemeClusterService.vecGet b t * ThemeClusterService.vecGet b t
    with hnB
  have hdot0 : 0 ≤ dot :=
    Finset.sum_nonneg (fun t _ => mul_nonneg (hga t) (hgb t))
  have hnA0 : 0 ≤ nA :=
    Finset.sum_nonneg (fun t _ => mul_nonneg (hga t) (hga t))
  have hnB0 : 0 ≤ nB :=
    Finset.sum_nonneg (fun t _ => mul_nonneg (hgb t) (hgb t))
  by_cases hcond : nA = 0 ∨ nB = 0
  · rw [if_pos hcond]
    norm_num
  · rw [if_neg hcond]
    push_neg at hcond
    have hApos : (0 : ℝ) < (nA : ℝ) := by
      exact_mod_cast lt_of_le_of_ne hnA0 (Ne.symm hcond.1)
    have hBpos : (0 : ℝ) < (nB : ℝ) := by
      exact_mod_cast lt_of_le_of_ne hnB0 (Ne.symm hcond.2)
    have hden : 0 < Real.sqrt (nA : ℝ) * Real.sqrt (nB : ℝ) :=
      mul_pos (Real.sqrt_pos.mpr hApos) (Real.sqrt_pos.mpr hBpos)
    constructor
    · exact div_nonneg (by exact_mod_cast hdot0) (le_of_lt hden)
    · rw [div_le_one hden]
      have hcs : dot ^ 2 ≤ nA * nB := by
        have h₁ := Finset.sum_mul_sq_le_sq_mul_sq U
          (fun t => ThemeClusterService.vecGet a t) (fun t => ThemeClusterService.vecGet b t)
        have h₂ : ∀ v : TokenVec,
            (∑ t ∈ U, ThemeClusterService.vecGet v t ^ 2) =
              ∑ t ∈ U, ThemeClusterService.vecGet v t * ThemeClusterService.vecGet v t :=
          fun v => Finset.sum_congr rfl (fun t _ => sq (ThemeClusterService.vecGet v t) ▸ rfl)
        calc dot ^ 2 = (∑ t ∈ U, ThemeClusterService.vecGet a t * ThemeClusterService.vecGet b t) ^ 2 := by rw [hdot]
          _ ≤ (∑ t ∈ U, ThemeClusterService.vecGet a t ^ 2) *
              ∑ t ∈ U, ThemeClusterService.vecGet b t ^ 2 := h₁
          _ = nA * nB := by rw [h₂ a, h₂ b, hnA, hnB]
      have hcsR : ((dot : ℝ)) ^ 2 ≤ (nA : ℝ) * (nB : ℝ) := by
        exact_mod_cast hcs
      have hle : (dot : ℝ) ≤ Real.sqrt ((nA : ℝ) * (nB : ℝ)) :=
        Real.le_sqrt_of_sq_le hcsR
      rwa [Real.sqrt_mul (le_of_lt hApos)] at hle

theorem cosineSimilarity_zero_norm {a b : TokenVec}
    (h : (∑ t ∈ (a.map Prod.fst).toFinset,
            ThemeClusterService.vecGet a t * ThemeClusterService.vecGet a t) = 0 ∨
         (∑ t ∈ (b.map Prod.fst).toFinset,
            ThemeClusterService.vecGet b t * ThemeClusterService.vecGet b t) = 0) :
    ThemeClusterService.cosineSimilarity a b = 0 := by
  simp only [ThemeClusterService.cosineSimilarity]
  rw [if_pos]
  rw [norm_shared_eq_own_left a b, norm_shared_eq_own_right a b]
  exact h

theorem cosineSimilarity_disjoint {a b : TokenVec}
    (h : ∀ tok ∈ a.map Prod.fst, tok ∉ b.map Prod.fst) :
    ThemeClusterService.cosineSimilarity a b = 0 := by
  simp only [ThemeClusterService.cosineSimilarity]
  have hdot : ThemeClusterService.dotOver a b (ThemeClusterService.sharedKeys a b) = 0 := by
    rw [dotOver_sharedKeys a b a b]
    refine Finset.sum_eq_zero ?_
    intro t _
    by_cases hta : t ∈ a.map Prod.fst
    · rw [vecGet_eq_zero_of_not_mem (h t hta), mul_zero]
    · rw [vecGet_eq_zero_of_not_mem hta, zero_mul]
  by_cases hcond : ThemeClusterService.dotOver a a (ThemeClusterService.sharedKeys a b) = 0 ∨
      ThemeClusterService.dotOver b b (ThemeClusterService.sharedKeys a b) = 0
  · rw [if_pos hcond]
  · rw [if_neg hcond, hdot]
    norm_num

/-- C6: cosine similarity of vectors built from thread scores is symmetric,
lies in [0, 1], is 0 when either vector has zero norm, and is 0 for
vectors with disjoint token sets. -/
theorem C6_cosine_similarity_properties (s t : ThreadScore) :
    ThemeClusterService.cosineSimilarity (ThemeClusterService.buildVector s)
        (ThemeClusterService.buildVector t) =
      ThemeClusterService.cosineSimilarity (ThemeClusterService.buildVector t)
        (ThemeClusterService.buildVector s) ∧
    0 ≤ ThemeClusterService.cosineSimilarity (ThemeClusterService.buildVector s)
        (ThemeClusterService.buildVector t) ∧
    ThemeClusterService.cosineSimilarity (ThemeClusterService.buildVector s)
        (ThemeClusterService.buildVector t) ≤ 1 ∧
    ((∑ tok ∈ ((ThemeClusterService.buildVector s).map Prod.fst).toFinset,
        ThemeClusterService.vecGet (ThemeClusterService.buildVector s) tok *
          ThemeClusterService.vecGet (ThemeClusterService.buildVector s) tok) = 0 ∨
     (∑ tok ∈ ((ThemeClusterService.buildVector t).map Prod.fst).toFinset,
        ThemeClusterService.vecGet (ThemeClusterService.buildVector t) tok *
          ThemeClusterService.vecGet (ThemeClusterService.buildVector t) tok) = 0 →
      ThemeClusterService.cosineSimilarity (ThemeClusterService.buildVector s)
        (ThemeClusterService.buildVector t) = 0) ∧
    ((∀ tok ∈ (ThemeClusterService.buildVector s).map Prod.fst,
        tok ∉ (ThemeClusterService.buildVector t).map Prod.fst) →
      ThemeClusterService.cosineSimilarity (ThemeClusterService.buildVector s)
        (ThemeClusterService.buildVector t) = 0) := by
  have hb := cosineSimilarity_nonneg_le_one
    (buildVector_entries_nonneg s) (buildVector_entries_nonneg t)
  exact ⟨cosineSimilarity_comm _ _, hb.1, hb.2,
    fun h => cosineSimilarity_zero_norm h, fun h => cosineSimilarity_disjoint h⟩

/-- Witness for C6: `alphaScore` and `betaScore` have disjoint singleton
vectors, so their cosine similarity is 0. -/
theorem C6_cosine_similarity_properties_witness :
    ThemeClusterService.cosineSimilarity (ThemeClusterService.buildVector alphaScore)
      (ThemeClusterService.buildVector betaScore) = 0 :=
  (C6_cosine_similarity_properties alphaScore betaScore).2.2.2.2 (by decide)

theorem clusterPass_label :
    ∀ (fuel : ℕ) (l : List ThemeClusterService.ClusterUnit) (c : ThreadCluster),
      c ∈ ThemeClusterService.clusterPass fuel l →
      c.label = ThemeClusterService.buildLabel c.members ∧ c.members.length ≠ 0 := by
  intro fuel
  induction fuel with
  | zero =>
      intro l c hc
      match l with
      | [] => simp [ThemeClusterService.clusterPass] at hc
      | _ :: _ => simp [ThemeClusterService.clusterPass] at hc
  | succ fuel ih =>
      intro l c hc
      match l with
      | [] => simp [ThemeClusterService.clusterPass] at hc
      | (i, s, v) :: rest =>
          simp only [ThemeClusterService.clusterPass] at hc
          rcases List.mem_cons.mp hc with rfl | hmem
          · exact ⟨rfl, by simp⟩
          · exact ih _ c hmem

/-- Clusters reachable from `analyze` satisfy `label = buildLabel members`
and have non-empty members. -/
theorem analyze_label (scores : List ThreadScore) (c : ThreadCluster)
    (hc : c ∈ (ThemeClusterService.analyze scores).clusters) :
    c.label = ThemeClusterService.buildLabel c.members ∧ c.members.length ≠ 0 := by
  by_cases hempty : scores.length = 0
  · rw [ThemeClusterService.analyze, if_pos hempty] at hc
    simp at hc
  · have hclusters : (ThemeClusterService.analyze scores).clusters =
        ThemeClusterService.clusterPass
          ((scores.zip (scores.map ThemeClusterService.buildVector)).enum).length
          ((scores.zip (scores.map ThemeClusterService.buildVector)).enum) := by
      rw [ThemeClusterService.analyze, if_neg hempty]
    rw [hclusters] at hc
    exact clusterPass_label _ _ c hc

/-- C8 (amended): every cluster's label is computed from the label weights
`keywordHits + 2 × bigramHits` summed per slug over the members' topic hits
(not from the `topTokens` vector weights): the entries are stable-sorted
descending by that weight, and the label is the two top tokens joined by the
separator, the single token, or "general". -/
theorem C8_label_two_heaviest_label_weights (scores : List ThreadScore) (c : ThreadCluster)
    (hc : c ∈ (ThemeClusterService.analyze scores).clusters) :
    ∃ sorted : List (String × ℚ),
      List.Perm sorted (ThemeClusterService.labelWeights c.members) ∧
      sorted.Pairwise (fun x y => y.2 ≤ x.2) ∧
      c.label = match sorted with
        | [] => "general"
        | [t₀] => t₀.1
        | t₀ :: t₁ :: _ => t₀.1 ++ ThemeClusterService.labelSep ++ t₁.1 := by
  rcases analyze_label scores c hc with ⟨hlabel, hne⟩
  refine ⟨ThemeClusterService.sortEntriesDesc (ThemeClusterService.labelWeights c.members),
    List.mergeSort_perm _ _, ?_, ?_⟩
  · have h := @List.sorted_mergeSort (String × ℚ)
      (fun a b : String × ℚ => decide (b.2 ≤ a.2))
      (descBy_trans (fun p : String × ℚ => p.2))
      (descBy_total (fun p : String × ℚ => p.2))
      (ThemeClusterService.labelWeights c.members)
    exact h.imp (fun hab => of_decide_eq_true hab)
  · rw [hlabel, ThemeClusterService.buildLabel, if_neg hne]
    cases hs : ThemeClusterService.sortEntriesDesc
        (ThemeClusterService.labelWeights c.members) with
    | nil => rfl
    | cons t₀ rest =>
        cases rest with
        | nil => rfl
        | cons t₁ tail => rfl

theorem clusterPass_one (i : ℕ) (s : ThreadScore) (v : TokenVec) :
    ThemeClusterService.clusterPass 1 [(i, s, v)] =
      [{ id := "cluster-" ++ toString i
         label := ThemeClusterService.buildLabel [s]
         members := [s]
         topTokens := ThemeClusterService.topTokensForCluster [v] 2 }] := by
  show ThemeClusterService.clusterPass (0 + 1) [(i, s, v)] = _
  rw [ThemeClusterService.clusterPass]
  simp only [List.filter_nil, List.map_nil]
  rw [ThemeClusterService.clusterPass]

/-- Evaluation of `analyze` on the singleton `alphaScore` input: the label
weighting sees no topic hits ("general"), while the vector weighting sees
the matched keyword "alpha". -/
theorem analyze_alphaScore_clusters :
    (ThemeClusterService.analyze [alphaScore]).clusters =
      [{ id := "cluster-0", label := "general", members := [alphaScore],
         topTokens := ["alpha"] }] := by
  have hbl : ThemeClusterService.buildLabel [alphaScore] = "general" := by
    rw [ThemeClusterService.buildLabel, if_neg (by decide : ¬ ([alphaScore].length = 0))]
    rw [show ThemeClusterService.labelWeights [alphaScore] = [] from rfl]
    rw [ThemeClusterService.sortEntriesDesc, List.mergeSort_nil]
  have htt : ThemeClusterService.topTokensForCluster
      [ThemeClusterService.buildVector alphaScore] 2 = ["alpha"] := by
    rw [ThemeClusterService.topTokensForCluster, ThemeClusterService.sortEntriesDesc]
    rw [show ThemeClusterService.aggTokens [ThemeClusterService.buildVector alphaScore] =
      [("alpha", (1 : ℚ))] from rfl]
    rw [List.mergeSort_singleton]
    rfl
  have hne : ¬ ([alphaScore].length = 0) := by decide
  have hclusters : (ThemeClusterService.analyze [alphaScore]).clusters =
      ThemeClusterService.clusterPass
        (([alphaScore].zip ([alphaScore].map ThemeClusterService.buildVector)).enum).length
        (([alphaScore].zip ([alphaScore].map ThemeClusterService.buildVector)).enum) := by
    rw [ThemeClusterService.analyze, if_neg hne]
  rw [hclusters]
  rw [show (([alphaScore].zip
      ([alphaScore].map ThemeClusterService.buildVector)).enum).length = 1 from rfl]
  rw [show (([alphaScore].zip ([alphaScore].map ThemeClusterService.buildVector)).enum) =
    [(0, alphaScore, ThemeClusterService.buildVector alphaScore)] from rfl]
  rw [clusterPass_one, hbl, htt]
  have hid : "cluster-" ++ toString 0 = "cluster-0" := by decide
  rw [hid]

/-- Counterexample to C8 as stated: on the singleton `alphaScore` input the
cluster's label is "general" (the label weighting sees no topic hits), but
its `topTokens` weighting yields the single token "alpha", whose prescribed
label would be "alpha". -/
theorem C8_label_counterexample :
    ¬ (∀ c ∈ (ThemeClusterService.analyze [alphaScore]).clusters,
        c.label = labelOfTopTokens c.topTokens) := by
  intro h
  have hc := h
    { id := "cluster-0", label := "general", members := [alphaScore], topTokens := ["alpha"] }
    (by rw [analyze_alphaScore_clusters]; exact List.mem_singleton.mpr rfl)
  exact absurd hc (by decide)

theorem C8_label_two_heaviest_label_weights_witness :
    ∃ sorted : List (String × ℚ),
      List.Perm sorted (ThemeClusterService.labelWeights [alphaScore]) ∧
      sorted.Pairwise (fun x y => y.2 ≤ x.2) ∧
      ("general" : String) = match sorted with
        | [] => "general"
        | [t₀] => t₀.1
        | t₀ :: t₁ :: _ => t₀.1 ++ ThemeClusterService.labelSep ++ t₁.1 :=
  C8_label_two_heaviest_label_weights [alphaScore]
    { id := "cluster-0", label := "general", members := [alphaScore], topTokens := ["alpha"] }
    (by rw [analyze_alphaScore_clusters]; exact List.mem_singleton.mpr rfl)

/-! ### Summarizer: claims C3, C4, C5 and C10 -/

/-- Counterexample to C5 as stated: `tinyMessage` is a non-empty input whose
only sentence is filtered away, yet `summarize` returns the fixed empty
result (empty `selectedIds`), not the raw-message fallback (which would
select id "m1").  The fallback branch is unreachable: `selectByMMR` always
selects at least one of a non-empty sentence list. -/
theorem C5_fallback_counterexample :
    Summarizer.buildSentenceDocs [tinyMessage] = [] ∧
    ([tinyMessage] : List MessageForSummary) ≠ [] ∧
    (Summarizer.summarize [] [tinyMessage] "energy").selectedIds = [] ∧
    (Summarizer.summarize [] [tinyMessage] "energy").selectedIds ≠
      (Summarizer.fallback [tinyMessage]).selectedIds := by
  refine ⟨by decide, by decide, ?_, ?_⟩
  · decide
  · decide

/-- C5 (amended): for a non-empty message list all of whose sentences are
removed by cleaning, splitting and token filtering, `summarize` returns the
fixed "No notable discussion captured in this window." result with an empty
`selectedIds` — not the raw-message fallback, whose branch is dead code. -/
theorem C5_no_surviving_sentences_empty_result (tax : Taxonomy)
    (messages : List MessageForSummary) (topic : String)
    (hne : messages ≠ []) (hdocs : Summarizer.buildSentenceDocs messages = []) :
    Summarizer.summarize tax messages topic = Summarizer.emptyResult := by
  have hlen : ¬ (messages.length = 0) := fun h => hne (List.eq_nil_of_length_eq_zero h)
  simp only [Summarizer.summarize, hdocs]
  rw [if_neg hlen]
  simp

theorem C5_no_surviving_sentences_empty_result_witness :
    Summarizer.summarize [] [tinyMessage] "energy" = Summarizer.emptyResult :=
  C5_no_surviving_sentences_empty_result [] [tinyMessage] "energy" (by decide) (by decide)

theorem enforceAux_length_le :
    ∀ (idxs : List ℕ) (docs : List SentenceDoc) (limit : ℕ) (chosen : List SentenceDoc)
      (total : ℕ), chosen.length ≤ 4 →
      (Summarizer.enforceAux docs limit idxs chosen total).length ≤ 4 := by
  intro idxs
  induction idxs with
  | nil => intro docs limit chosen total h; exact h
  | cons index rest ih =>
      intro docs limit chosen total h
      rw [Summarizer.enforceAux]
      by_cases h4 : 4 ≤ chosen.length
      · rw [if_pos h4]
        exact h
      · rw [if_neg h4]
        by_cases hbreak : limit < total + jsLength (docs.getD index default).original ∧
            0 < chosen.length
        · rw [if_pos hbreak]
          exact h
        · rw [if_neg hbreak]
          refine ih docs limit _ _ ?_
          rw [List.length_append, List.length_singleton]
          omega

theorem enforceAux_char_le :
    ∀ (idxs : List ℕ) (docs : List SentenceDoc) (limit : ℕ) (chosen : List SentenceDoc)
      (total : ℕ),
      total = (chosen.map (fun d => jsLength d.original)).sum →
      (chosen.length ≤ 1 ∨ total ≤ limit) →
      ((Summarizer.enforceAux docs limit idxs chosen total).length ≤ 1 ∨
        ((Summarizer.enforceAux docs limit idxs chosen total).map
          (fun d => jsLength d.original)).sum ≤ limit) := by
  intro idxs
  induction idxs with
  | nil =>
      intro docs limit chosen total htotal hinv
      rw [Summarizer.enforceAux]
      rcases hinv with h | h
      · exact Or.inl h
      · exact Or.inr (htotal ▸ h)
  | cons index rest ih =>
      intro docs limit chosen total htotal hinv
      rw [Summarizer.enforceAux]
      by_cases h4 : 4 ≤ chosen.length
      · rw [if_pos h4]
        rcases hinv with h | h
        · exact Or.inl h
        · exact Or.inr (htotal ▸ h)
      · rw [if_neg h4]
        by_cases hbreak : limit < total + jsLength (docs.getD index default).original ∧
            0 < chosen.length
        · rw [if_pos hbreak]
          rcases hinv with h | h
          · exact Or.inl h
          · exact Or.inr (htotal ▸ h)
        · rw [if_neg hbreak]
          refine ih docs limit _ _ ?_ ?_
          · rw [List.map_append, List.sum_append, htotal]
            simp
          · by_cases hzero : chosen.length = 0
            · left
              rw [List.length_append, List.length_singleton, hzero]
            · right
              rcases not_and_or.mp hbreak with hn | hn
              · exact le_of_not_lt hn
              · exact absurd (Nat.pos_of_ne_zero hzero) hn

/-- One-step case analysis of `summarize` (its `let`s unfolded). -/
theorem summarize_eq_cases (tax : Taxonomy) (messages : List MessageForSummary)
    (topic : String) :
    Summarizer.summarize tax messages topic =
      if messages.length = 0 then Summarizer.emptyResult
      else if (Summarizer.buildSentenceDocs messages).length = 0 then Summarizer.emptyResult
      else if (Summarizer.selectByMMR (Summarizer.buildSentenceDocs messages)
          ((Summarizer.buildSentenceDocs messages).enum.map
            (fun p => Summarizer.computeSentenceScore p.2
              (Summarizer.buildDocumentFrequency (Summarizer.buildSentenceDocs messages))
              (Summarizer.buildSentenceDocs messages).length
              (Summarizer.buildTopicTokens
                (((tax.lookup (toLowerStr topic)).map Topic.keywords).getD [])
                (((tax.lookup (toLowerStr topic)).map Topic.bigrams).getD []) topic)
              p.1 (Summarizer.buildSentenceDocs messages).length)) 4).length = 0 then
        Summarizer.fallback messages
      else
        Summarizer.formatSummary (Summarizer.enforceCharacterLimit
          (Summarizer.buildSentenceDocs messages)
          (Summarizer.selectByMMR (Summarizer.buildSentenceDocs messages)
            ((Summarizer.buildSentenceDocs messages).enum.map
              (fun p => Summarizer.computeSentenceScore p.2
                (Summarizer.buildDocumentFrequency (Summarizer.buildSentenceDocs messages))
                (Summarizer.buildSentenceDocs messages).length
                (Summarizer.buildTopicTokens
                  (((tax.lookup (toLowerStr topic)).map Topic.keywords).getD [])
                  (((tax.lookup (toLowerStr topic)).map Topic.bigrams).getD []) topic)
                p.1 (Summarizer.buildSentenceDocs messages).length)) 4) 380) := rfl

theorem collapseWs_no_newline : ∀ (l : List Char) (b : Bool), '\n' ∉ collapseWs b l := by
  intro l
  induction l with
  | nil => intro b; simp [collapseWs]
  | cons c rest ih =>
      intro b
      rw [collapseWs]
      by_cases hw : jsWs c
      · rw [if_pos hw]
        by_cases hb : b = true
        · rw [if_pos hb]
          exact ih true
        · rw [if_neg hb]
          intro hmem
          rcases List.mem_cons.mp hmem with h | h
          · exact absurd h (by decide)
          · exact ih true h
      · rw [if_neg hw]
        intro hmem
        rcases List.mem_cons.mp hmem with h | h
        · apply hw
          rw [← h]
          decide
        · exact ih false h

theorem mem_jsTrimChars {x : Char} {l : List Char} (h : x ∈ jsTrimChars l) : x ∈ l := by
  rw [jsTrimChars, List.mem_reverse] at h
  have h₂ := (List.dropWhile_sublist jsWs).subset h
  rw [List.mem_reverse] at h₂
  exact (List.dropWhile_sublist jsWs).subset h₂

theorem formatBullet_no_newline (sentence author : String) (h : '\n' ∉ author.data) :
    '\n' ∉ (Summarizer.formatBullet sentence author).data := by
  intro hmem
  simp only [Summarizer.formatBullet, String.data_append, List.mem_append] at hmem
  rcases hmem with ((h₁ | h₂) | h₃) | h₄
  · exact absurd h₁ (by decide)
  · exact h h₂
  · exact absurd h₃ (by decide)
  · have h₄' : '\n' ∈ (if 180 < (jsTrimChars (collapseWs false sentence.data)).length
        then (jsTrimChars (collapseWs false sentence.data)).take 177 ++ "…".data
        else jsTrimChars (collapseWs false sentence.data)) := h₄
    split at h₄'
    · rcases List.mem_append.mp h₄' with h₅ | h₅
      · exact collapseWs_no_newline sentence.data false
          (mem_jsTrimChars (List.take_subset _ _ h₅))
      · exact absurd h₅ (by decide)
    · exact collapseWs_no_newline sentence.data false (mem_jsTrimChars h₄')

theorem intercalate_go_count :
    ∀ (rest : List String) (acc : String), (∀ b ∈ rest, '\n' ∉ b.data) →
      (String.intercalate.go acc "\n" rest).data.count '\n' =
        acc.data.count '\n' + rest.length := by
  intro rest
  induction rest with
  | nil =>
      intro acc _
      rw [String.intercalate.go, List.length_nil, Nat.add_zero]
  | cons a as ih =>
      intro acc hb
      rw [String.intercalate.go]
      rw [ih _ (fun b hbm => hb b (List.mem_cons_of_mem _ hbm))]
      rw [String.data_append, String.data_append, List.count_append, List.count_append]
      have ha : a.data.count '\n' = 0 :=
        List.count_eq_zero.mpr (hb a (List.mem_cons_self _ _))
      have hs : ("\n" : String).data.count '\n' = 1 := by decide
      rw [ha, hs, List.length_cons]
      omega

theorem count_intercalate_newline (bullets : List String)
    (h : ∀ b ∈ bullets, '\n' ∉ b.data) (hlen : bullets.length ≤ 4) :
    (String.intercalate "\n" bullets).data.count '\n' + 1 ≤ 4 := by
  cases bullets with
  | nil =>
      rw [String.intercalate]
      decide
  | cons a as =>
      rw [String.intercalate]
      rw [intercalate_go_count as a (fun b hbm => h b (List.mem_cons_of_mem _ hbm))]
      have ha : a.data.count '\n' = 0 :=
        List.count_eq_zero.mpr (h a (List.mem_cons_self _ _))
      rw [ha]
      rw [List.length_cons] at hlen
      omega

theorem fallback_newline_bound (messages : List MessageForSummary)
    (hauth : ∀ m ∈ messages, '\n' ∉ m.authorUsername.data) :
    (Summarizer.fallback messages).summary.data.count '\n' + 1 ≤ 4 := by
  simp only [Summarizer.fallback]
  split
  · decide
  · refine count_intercalate_newline _ ?_ ?_
    · intro b hb
      rcases List.mem_map.mp hb with ⟨m, hm, rfl⟩
      exact formatBullet_no_newline _ _ (hauth m (List.take_subset _ _ hm))
    · rw [List.length_map, List.length_take]
      omega

theorem formatSummary_newline_bound (sentences : List SentenceDoc)
    (h4 : sentences.length ≤ 4) (hauth : ∀ d ∈ sentences, '\n' ∉ d.author.data) :
    (Summarizer.formatSummary sentences).summary.data.count '\n' + 1 ≤ 4 := by
  simp only [Summarizer.formatSummary]
  split
  · decide
  · refine count_intercalate_newline _ ?_ ?_
    · intro b hb
      rcases List.mem_map.mp hb with ⟨d, hd, rfl⟩
      exact formatBullet_no_newline _ _ (hauth d hd)
    · rw [List.length_map]
      exact h4

theorem docsOfSentences_author (id author : String) (timestamp : ℚ) :
    ∀ (sentences : List String) (pos : ℕ) (d : SentenceDoc),
      d ∈ (Summarizer.docsOfSentences id author timestamp pos sentences).1 →
      d.author = author := by
  intro sentences
  induction sentences with
  | nil => intro pos d hd; simp [Summarizer.docsOfSentences] at hd
  | cons sentence rest ih =>
      intro pos d hd
      rw [Summarizer.docsOfSentences] at hd
      by_cases hnorm : Summarizer.normalize sentence = ""
      · rw [if_pos hnorm] at hd
        exact ih pos d hd
      · rw [if_neg hnorm] at hd
        simp only at hd
        split at hd
        · exact ih pos d hd
        · rcases List.mem_cons.mp hd with rfl | hmem
          · rfl
          · exact ih (pos + 1) d hmem

theorem buildDocsAux_author :
    ∀ (messages : List MessageForSummary) (pos : ℕ) (d : SentenceDoc),
      d ∈ Summarizer.buildDocsAux pos messages →
      d.author ∈ messages.map (fun m => m.authorUsername) := by
  intro messages
  induction messages with
  | nil => intro pos d hd; simp [Summarizer.buildDocsAux] at hd
  | cons m rest ih =>
      intro pos d hd
      rw [Summarizer.buildDocsAux] at hd
      rcases List.mem_append.mp hd with hmem | hmem
      · rw [List.map_cons]
        exact List.mem_cons.mpr (Or.inl (docsOfSentences_author _ _ _ _ _ _ hmem))
      · rw [List.map_cons]
        exact List.mem_cons.mpr (Or.inr (ih _ d hmem))

theorem enforceAux_append :
    ∀ (idxs : List ℕ) (docs : List SentenceDoc) (limit : ℕ) (chosen : List SentenceDoc)
      (total : ℕ), ∃ tail,
      Summarizer.enforceAux docs limit idxs chosen total = chosen ++ tail ∧
      List.Sublist tail (idxs.map (fun i => docs.getD i default)) := by
  intro idxs
  induction idxs with
  | nil =>
      intro docs limit chosen total
      exact ⟨[], by rw [Summarizer.enforceAux, List.append_nil], List.nil_sublist _⟩
  | cons index rest ih =>
      intro docs limit chosen total
      rw [Summarizer.enforceAux]
      by_cases h4 : 4 ≤ chosen.length
      · rw [if_pos h4]
        exact ⟨[], by rw [List.append_nil], List.nil_sublist _⟩
      · rw [if_neg h4]
        by_cases hbreak : limit < total + jsLength (docs.getD index default).original ∧
            0 < chosen.length
        · rw [if_pos hbreak]
          exact ⟨[], by rw [List.append_nil], List.nil_sublist _⟩
        · rw [if_neg hbreak]
          rcases ih docs limit (chosen ++ [docs.getD index default])
            (total + jsLength (docs.getD index default).original) with ⟨tail, heq, hsub⟩
          refine ⟨docs.getD index default :: tail, ?_, ?_⟩
          · rw [heq, List.append_assoc, List.singleton_append]
          · rw [List.map_cons]
            exact List.Sublist.cons₂ _ hsub

theorem enforceCharacterLimit_authors (docs : List SentenceDoc) (sel : List ℕ)
    (hdocs : ∀ d ∈ docs, '\n' ∉ d.author.data) :
    ∀ d ∈ Summarizer.enforceCharacterLimit docs sel 380, '\n' ∉ d.author.data := by
  intro d hd
  obtain ⟨tail, heq, hsub⟩ := enforceAux_append sel docs 380 [] 0
  have htail : Summarizer.enforceCharacterLimit docs sel 380 = tail := by
    rw [Summarizer.enforceCharacterLimit, heq, List.nil_append]
  rw [htail] at hd
  rcases List.mem_map.mp (hsub.subset hd) with ⟨i, _, rfl⟩
  by_cases hi : i < docs.length
  · refine hdocs _ ?_
    rw [List.getD_eq_getElem?_getD, List.getElem?_eq_getElem hi]
    simp only [Option.getD_some]
    exact List.getElem_mem hi
  · rw [List.getD_eq_getElem?_getD, List.getElem?_eq_none (le_of_not_lt hi)]
    simp only [Option.getD_none]
    decide

/-- C4: the summary string produced by `summarize` spans at most 4
newline-separated bullet lines (its newline count is at most 3; author
usernames are assumed newline-free, as Discord enforces — the code inserts
them verbatim into bullets while every other bullet fragment is
whitespace-collapsed), and the accumulated character total of the selected
sentences' original text never exceeds 380 except that a single (first)
accepted sentence may exceed it alone. -/
theorem C4_summary_bounded (tax : Taxonomy) (messages : List MessageForSummary)
    (topic : String) (docs : List SentenceDoc) (selected : List ℕ)
    (hauth : ∀ m ∈ messages, '\n' ∉ m.authorUsername.data) :
    (Summarizer.summarize tax messages topic).summary.data.count '\n' + 1 ≤ 4 ∧
    (Summarizer.enforceCharacterLimit docs selected 380).length ≤ 4 ∧
    ((Summarizer.enforceCharacterLimit docs selected 380).length ≤ 1 ∨
      ((Summarizer.enforceCharacterLimit docs selected 380).map
        (fun d => jsLength d.original)).sum ≤ 380) := by
  refine ⟨?_, enforceAux_length_le _ _ _ _ _ (by norm_num),
    enforceAux_char_le _ _ _ _ _ rfl (Or.inl (by norm_num))⟩
  have hdocsauth : ∀ d ∈ Summarizer.buildSentenceDocs messages, '\n' ∉ d.author.data := by
    intro d hd
    rcases List.mem_map.mp (buildDocsAux_author messages 0 d hd) with ⟨m, hm, hma⟩
    rw [← hma]
    exact hauth m hm
  rw [summarize_eq_cases]
  by_cases h0 : messages.length = 0
  · rw [if_pos h0]
    decide
  · rw [if_neg h0]
    by_cases h1 : (Summarizer.buildSentenceDocs messages).length = 0
    · rw [if_pos h1]
      decide
    · rw [if_neg h1]
      split
      · exact fallback_newline_bound messages hauth
      · exact formatSummary_newline_bound _
          (enforceAux_length_le _ _ _ _ _ (by norm_num))
          (enforceCharacterLimit_authors _ _ hdocsauth)

theorem C4_summary_bounded_witness :
    (Summarizer.summarize [] [tinyMessage] "energy").summary.data.count '\n' + 1 ≤ 4 ∧
    (Summarizer.enforceCharacterLimit [] [] 380).length ≤ 4 ∧
    ((Summarizer.enforceCharacterLimit [] [] 380).length ≤ 1 ∨
      ((Summarizer.enforceCharacterLimit [] [] 380).map
        (fun d => jsLength d.original)).sum ≤ 380) :=
  C4_summary_bounded [] [tinyMessage] "energy" [] [] (by decide)

/-- The four message fields the summarizer reads (everything except `url`). -/
theorem buildDocsAux_congr :
    ∀ (m₁ m₂ : List MessageForSummary) (pos : ℕ),
      m₁.map (fun m => (m.id, m.authorUsername, m.content, m.timestamp)) =
        m₂.map (fun m => (m.id, m.authorUsername, m.content, m.timestamp)) →
      Summarizer.buildDocsAux pos m₁ = Summarizer.buildDocsAux pos m₂ := by
  intro m₁
  induction m₁ with
  | nil =>
      intro m₂ pos h
      have hm : m₂ = [] := by
        cases m₂ with
        | nil => rfl
        | cons y ys => simp at h
      subst hm
      rfl
  | cons x xs ih =>
      intro m₂ pos h
      cases m₂ with
      | nil => simp at h
      | cons y ys =>
          simp only [List.map_cons, List.cons.injEq] at h
          rcases h with ⟨hcore, hrest⟩
          obtain ⟨h₁, h₂, h₃, h₄⟩ : x.id = y.id ∧ x.authorUsername = y.authorUsername ∧
              x.content = y.content ∧ x.timestamp = y.timestamp := by
            simpa using hcore
          rw [Summarizer.buildDocsAux, Summarizer.buildDocsAux, h₁, h₂, h₃, h₄]
          congr 1
          exact ih ys _ hrest

theorem fallback_congr {m₁ m₂ : List MessageForSummary}
    (h : m₁.map (fun m => (m.id, m.authorUsername, m.content, m.timestamp)) =
         m₂.map (fun m => (m.id, m.authorUsername, m.content, m.timestamp))) :
    Summarizer.fallback m₁ = Summarizer.fallback m₂ := by
  have hlen : m₁.length = m₂.length := by
    have := congrArg List.length h
    rwa [List.length_map, List.length_map] at this
  have htake : (m₁.take (min 3 m₁.length)).map
        (fun m => (m.id, m.authorUsername, m.content, m.timestamp)) =
      (m₂.take (min 3 m₂.length)).map
        (fun m => (m.id, m.authorUsername, m.content, m.timestamp)) := by
    rw [List.map_take, List.map_take, h, hlen]
  have hbullets : (m₁.take (min 3 m₁.length)).map
        (fun m => Summarizer.formatBullet m.content m.authorUsername) =
      (m₂.take (min 3 m₂.length)).map
        (fun m => Summarizer.formatBullet m.content m.authorUsername) := by
    have e : ∀ l : List MessageForSummary,
        l.map (fun m => Summarizer.formatBullet m.content m.authorUsername) =
          (l.map (fun m => (m.id, m.authorUsername, m.content, m.timestamp))).map
            (fun c => Summarizer.formatBullet c.2.2.1 c.2.1) := by
      intro l
      rw [List.map_map]
      rfl
    rw [e, e, htake]
  have hids : (m₁.take (min 3 m₁.length)).map (fun m => m.id) =
      (m₂.take (min 3 m₂.length)).map (fun m => m.id) := by
    have e : ∀ l : List MessageForSummary,
        l.map (fun m => m.id) =
          (l.map (fun m => (m.id, m.authorUsername, m.content, m.timestamp))).map
            (fun c => c.1) := by
      intro l
      rw [List.map_map]
      rfl
    rw [e, e, htake]
  simp only [Summarizer.fallback]
  rw [hbullets, hids]

/-- C3: the summarizer is deterministic: two message lists that agree on
ids, authors, contents, timestamps and order (`url` may differ) and the
same topic under the same taxonomy snapshot yield an identical summary
string and an identical selected-id list. -/
theorem C3_summarizer_deterministic (tax : Taxonomy) (topic : String)
    (m₁ m₂ : List MessageForSummary)
    (h : m₁.map (fun m => (m.id, m.authorUsername, m.content, m.timestamp)) =
         m₂.map (fun m => (m.id, m.authorUsername, m.content, m.timestamp))) :
    (Summarizer.summarize tax m₁ topic).summary =
      (Summarizer.summarize tax m₂ topic).summary ∧
    (Summarizer.summarize tax m₁ topic).selectedIds =
      (Summarizer.summarize tax m₂ topic).selectedIds := by
  have hlen : m₁.length = m₂.length := by
    have := congrArg List.length h
    rwa [List.length_map, List.length_map] at this
  have hdocs : Summarizer.buildSentenceDocs m₁ = Summarizer.buildSentenceDocs m₂ :=
    buildDocsAux_congr m₁ m₂ 0 h
  have hfb : Summarizer.fallback m₁ = Summarizer.fallback m₂ := fallback_congr h
  have hsum : Summarizer.summarize tax m₁ topic = Summarizer.summarize tax m₂ topic := by
    rw [summarize_eq_cases, summarize_eq_cases, hlen, hdocs, hfb]
  exact ⟨congrArg _ hsum, congrArg _ hsum⟩

/-- Witness for C3: two copies of the same message differing only in `url`. -/
theorem C3_summarizer_deterministic_witness :
    (Summarizer.summarize [] [twoSentenceMessage] "energy").summary =
      (Summarizer.summarize []
        [{ twoSentenceMessage with url := "https://resistance.example" }] "energy").summary ∧
    (Summarizer.summarize [] [twoSentenceMessage] "energy").selectedIds =
      (Summarizer.summarize []
        [{ twoSentenceMessage with url := "https://resistance.example" }] "energy").selectedIds :=
  C3_summarizer_deterministic [] "energy" [twoSentenceMessage]
    [{ twoSentenceMessage with url := "https://resistance.example" }] (by decide)

theorem pickBest_mem (f : ℕ → ℝ) :
    ∀ (cs : List ℕ) (c₀ : ℕ), Summarizer.pickBest f c₀ cs ∈ c₀ :: cs := by
  intro cs
  induction cs with
  | nil => intro c₀; rw [Summarizer.pickBest]; exact List.mem_singleton.mpr rfl
  | cons c cs' ih =>
      intro c₀
      rw [Summarizer.pickBest]
      by_cases h : f c₀ < f c
      · rw [if_pos h]
        exact List.mem_cons_of_mem _ (ih c)
      · rw [if_neg h]
        rcases List.mem_cons.mp (ih c₀) with h₁ | h₂
        · rw [h₁]
          exact List.mem_cons_self _ _
        · exact List.mem_cons_of_mem _ (List.mem_cons_of_mem _ h₂)

theorem mmrLoop_nodup_subset (docs : List SentenceDoc) (scores : List ℝ) (maxItems : ℕ) :
    ∀ (fuel : ℕ) (candidates selected : List ℕ), (selected ++ candidates).Nodup →
      (Summarizer.mmrLoop docs scores maxItems fuel candidates selected).Nodup ∧
      ∀ x ∈ Summarizer.mmrLoop docs scores maxItems fuel candidates selected,
        x ∈ selected ++ candidates := by
  intro fuel
  induction fuel with
  | zero =>
      intro candidates selected h
      rw [Summarizer.mmrLoop]
      exact ⟨(List.nodup_append.mp h).1, fun x hx => List.mem_append_left _ hx⟩
  | succ fuel ih =>
      intro candidates selected h
      match candidates with
      | [] =>
          rw [Summarizer.mmrLoop]
          refine ⟨?_, fun x hx => List.mem_append_left _ hx⟩
          rw [List.append_nil] at h
          exact h
      | c₀ :: cs =>
          rw [Summarizer.mmrLoop]
          by_cases hmax : maxItems ≤ selected.length
          · rw [if_pos hmax]
            rw [List.nodup_append] at h
            exact ⟨h.1, fun x hx => List.mem_append_left _ hx⟩
          · rw [if_neg hmax]
            have hbm : Summarizer.pickBest (Summarizer.mmrOf docs scores selected) c₀ cs ∈
                c₀ :: cs := pickBest_mem _ _ _
            have hperm : List.Perm (c₀ :: cs)
                (Summarizer.pickBest (Summarizer.mmrOf docs scores selected) c₀ cs ::
                  (c₀ :: cs).erase
                    (Summarizer.pickBest (Summarizer.mmrOf docs scores selected) c₀ cs)) :=
              List.perm_cons_erase hbm
            have hperm₂ : List.Perm (selected ++ c₀ :: cs)
                ((selected ++ [Summarizer.pickBest (Summarizer.mmrOf docs scores selected) c₀ cs]) ++
                  (c₀ :: cs).erase
                    (Summarizer.pickBest (Summarizer.mmrOf docs scores selected) c₀ cs)) := by
              refine List.Perm.trans (List.Perm.append_left selected hperm) ?_
              rw [List.append_assoc, List.singleton_append]
            have hnodup' := h.perm hperm₂
            rcases ih ((c₀ :: cs).erase
                (Summarizer.pickBest (Summarizer.mmrOf docs scores selected) c₀ cs))
              (selected ++ [Summarizer.pickBest (Summarizer.mmrOf docs scores selected) c₀ cs])
              hnodup' with ⟨hn, hs⟩
            refine ⟨hn, fun x hx => ?_⟩
            exact (hperm₂.mem_iff).mpr (hs x hx)

theorem mmrLoop_all (docs : List SentenceDoc) (scores : List ℝ) (maxItems : ℕ) :
    ∀ (fuel : ℕ) (candidates selected : List ℕ), candidates.length ≤ fuel →
      selected.length + candidates.length ≤ maxItems →
      List.Perm (Summarizer.mmrLoop docs scores maxItems fuel candidates selected)
        (selected ++ candidates) := by
  intro fuel
  induction fuel with
  | zero =>
      intro candidates selected hfuel _
      have : candidates = [] := List.eq_nil_of_length_eq_zero (Nat.le_zero.mp hfuel)
      subst this
      rw [Summarizer.mmrLoop, List.append_nil]
  | succ fuel ih =>
      intro candidates selected hfuel hmax
      match candidates with
      | [] =>
          rw [Summarizer.mmrLoop, List.append_nil]
      | c₀ :: cs =>
          rw [Summarizer.mmrLoop]
          have hnotmax : ¬ (maxItems ≤ selected.length) := by
            rw [List.length_cons] at hmax
            omega
          rw [if_neg hnotmax]
          have hbm : Summarizer.pickBest (Summarizer.mmrOf docs scores selected) c₀ cs ∈
              c₀ :: cs := pickBest_mem _ _ _
          have herase : ((c₀ :: cs).erase
              (Summarizer.pickBest (Summarizer.mmrOf docs scores selected) c₀ cs)).length =
              cs.length := by
            rw [List.length_erase_of_mem hbm, List.length_cons]
            rfl
          have hperm : List.Perm (c₀ :: cs)
              (Summarizer.pickBest (Summarizer.mmrOf docs scores selected) c₀ cs ::
                (c₀ :: cs).erase
                  (Summarizer.pickBest (Summarizer.mmrOf docs scores selected) c₀ cs)) :=
            List.perm_cons_erase hbm
          refine List.Perm.trans (ih _ _ ?_ ?_) ?_
          · rw [herase]
            rw [List.length_cons] at hfuel
            omega
          · rw [List.length_append, List.length_singleton, herase]
            rw [List.length_cons] at hmax
            omega
          · rw [List.append_assoc, List.singleton_append]
            refine List.Perm.trans ?_ (List.Perm.append_left selected hperm.symm)
            exact List.Perm.refl _

theorem mmrLoop_length_ge (docs : List SentenceDoc) (scores : List ℝ) (maxItems : ℕ) :
    ∀ (fuel : ℕ) (candidates selected : List ℕ),
      selected.length ≤ (Summarizer.mmrLoop docs scores maxItems fuel candidates selected).length := by
  intro fuel
  induction fuel with
  | zero =>
      intro candidates selected
      rw [Summarizer.mmrLoop]
  | succ fuel ih =>
      intro candidates selected
      match candidates with
      | [] => rw [Summarizer.mmrLoop]
      | c₀ :: cs =>
          rw [Summarizer.mmrLoop]
          by_cases hmax : maxItems ≤ selected.length
          · rw [if_pos hmax]
          · rw [if_neg hmax]
            refine le_trans ?_ (ih _ _)
            rw [List.length_append, List.length_singleton]
            omega

theorem ascNat_trans : ∀ a b c : ℕ,
    decide (a ≤ b) → decide (b ≤ c) → decide (a ≤ c) := by
  intro a b c hab hbc
  exact decide_eq_true (le_trans (of_decide_eq_true hab) (of_decide_eq_true hbc))

theorem ascNat_total : ∀ a b : ℕ, decide (a ≤ b) || decide (b ≤ a) := by
  intro a b
  rcases le_total a b with h | h
  · simp [h]
  · simp [h]

theorem selectByMMR_pairwise_lt (docs : List SentenceDoc) (scores : List ℝ) (maxItems : ℕ) :
    (Summarizer.selectByMMR docs scores maxItems).Pairwise (· < ·) ∧
    ∀ x ∈ Summarizer.selectByMMR docs scores maxItems, x < scores.length := by
  have hcand : List.Perm ((List.range scores.length).mergeSort
      (fun i j => decide (scores.getD j 0 ≤ scores.getD i 0))) (List.range scores.length) :=
    List.mergeSort_perm _ _
  have hnodup₀ : (([] : List ℕ) ++ (List.range scores.length).mergeSort
      (fun i j => decide (scores.getD j 0 ≤ scores.getD i 0))).Nodup := by
    rw [List.nil_append]
    exact hcand.nodup_iff.mpr (List.nodup_range _)
  rcases mmrLoop_nodup_subset docs scores maxItems scores.length _ [] hnodup₀ with ⟨hn, hsub⟩
  have hperm : List.Perm ((Summarizer.mmrLoop docs scores maxItems scores.length
      ((List.range scores.length).mergeSort
        (fun i j => decide (scores.getD j 0 ≤ scores.getD i 0))) []).mergeSort
          (fun i j => decide (i ≤ j)))
      (Summarizer.mmrLoop docs scores maxItems scores.length
        ((List.range scores.length).mergeSort
          (fun i j => decide (scores.getD j 0 ≤ scores.getD i 0))) []) :=
    List.mergeSort_perm _ _
  constructor
  · have hsorted := @List.sorted_mergeSort ℕ (fun i j : ℕ => decide (i ≤ j))
      ascNat_trans ascNat_total
      (Summarizer.mmrLoop docs scores maxItems scores.length
        ((List.range scores.length).mergeSort
          (fun i j => decide (scores.getD j 0 ≤ scores.getD i 0))) [])
    have hle : (Summarizer.selectByMMR docs scores maxItems).Pairwise (· ≤ ·) :=
      hsorted.imp (fun hab => of_decide_eq_true hab)
    have hnd : (Summarizer.selectByMMR docs scores maxItems).Nodup :=
      hperm.nodup_iff.mpr hn
    exact (hle.and hnd).imp (fun hab => lt_of_le_of_ne hab.1 hab.2)
  · intro x hx
    have hx' : x ∈ Summarizer.mmrLoop docs scores maxItems scores.length
        ((List.range scores.length).mergeSort
          (fun i j => decide (scores.getD j 0 ≤ scores.getD i 0))) [] :=
      hperm.mem_iff.mp hx
    have := hsub x hx'
    rw [List.nil_append, List.mem_mergeSort, List.mem_range] at this
    exact this

theorem selectByMMR_eq_range (docs : List SentenceDoc) (scores : List ℝ) (maxItems : ℕ)
    (h : scores.length ≤ maxItems) :
    Summarizer.selectByMMR docs scores maxItems = List.range scores.length := by
  have hloop : List.Perm (Summarizer.mmrLoop docs scores maxItems scores.length
      ((List.range scores.length).mergeSort
        (fun i j => decide (scores.getD j 0 ≤ scores.getD i 0))) [])
      (List.range scores.length) := by
    refine List.Perm.trans (mmrLoop_all docs scores maxItems scores.length _ [] ?_ ?_) ?_
    · rw [List.length_mergeSort, List.length_range]
    · rw [List.length_nil, List.length_mergeSort, List.length_range, Nat.zero_add]
      exact h
    · rw [List.nil_append]
      exact List.mergeSort_perm _ _
  have hperm : List.Perm (Summarizer.selectByMMR docs scores maxItems)
      (List.range scores.length) :=
    List.Perm.trans (List.mergeSort_perm _ _) hloop
  have hsorted : (Summarizer.selectByMMR docs scores maxItems).Pairwise (· ≤ ·) :=
    (@List.sorted_mergeSort ℕ (fun i j : ℕ => decide (i ≤ j)) ascNat_trans ascNat_total
      _).imp (fun hab => of_decide_eq_true hab)
  exact List.eq_of_perm_of_sorted hperm hsorted (List.pairwise_le_range scores.length)

theorem selectByMMR_ne_nil (docs : List SentenceDoc) (scores : List ℝ) (maxItems : ℕ)
    (h0 : scores.length ≠ 0) (hm : 0 < maxItems) :
    (Summarizer.selectByMMR docs scores maxItems).length ≠ 0 := by
  rcases Nat.exists_eq_succ_of_ne_zero h0 with ⟨f, hf⟩
  rw [Summarizer.selectByMMR, List.length_mergeSort]
  have hclen : ((List.range scores.length).mergeSort
      (fun i j => decide (scores.getD j 0 ≤ scores.getD i 0))).length = f + 1 := by
    rw [List.length_mergeSort, List.length_range, hf]
  rcases List.exists_cons_of_ne_nil
      (List.ne_nil_of_length_pos (by rw [hclen]; omega) :
        ((List.range scores.length).mergeSort
          (fun i j => decide (scores.getD j 0 ≤ scores.getD i 0))) ≠ []) with ⟨c₀, cs, hcons⟩
  rw [hcons, hf, Summarizer.mmrLoop]
  rw [if_neg (by rw [List.length_nil]; omega : ¬ (maxItems ≤ ([] : List ℕ).length))]
  have hge := mmrLoop_length_ge docs scores maxItems f
    ((c₀ :: cs).erase (Summarizer.pickBest (Summarizer.mmrOf docs scores []) c₀ cs))
    ([] ++ [Summarizer.pickBest (Summarizer.mmrOf docs scores []) c₀ cs])
  simp only [List.nil_append, List.length_singleton] at hge ⊢
  omega

theorem mapGetD_sublist_from {α : Type} [Inhabited α] :
    ∀ (is : List ℕ) (l : List α) (k : ℕ), is.Pairwise (· < ·) →
      (∀ i ∈ is, i < l.length) → (∀ i ∈ is, k ≤ i) →
      List.Sublist (is.map (fun i => l.getD i default)) (l.drop k) := by
  intro is
  induction is with
  | nil => intro l k _ _ _; exact List.nil_sublist _
  | cons i is' ih =>
      intro l k hpw hbnd hge
      have hi : i < l.length := hbnd i (List.mem_cons_self _ _)
      have hki : k ≤ i := hge i (List.mem_cons_self _ _)
      have hmono : ∀ j ∈ is', i < j := fun j hj => List.rel_of_pairwise_cons hpw hj
      rw [List.map_cons]
      have hrec : List.Sublist (is'.map (fun j => l.getD j default)) (l.drop (i + 1)) := by
        refine ih l (i + 1) hpw.tail (fun j hj => hbnd j (List.mem_cons_of_mem _ hj)) ?_
        intro j hj
        exact hmono j hj
      have hcons : List.Sublist (l.getD i default :: is'.map (fun j => l.getD j default))
          (l.getD i default :: l.drop (i + 1)) := List.Sublist.cons₂ _ hrec
      have hdrop : l.getD i default :: l.drop (i + 1) = l.drop i := by
        rw [List.getD_eq_getElem?_getD, List.getElem?_eq_getElem hi]
        simp only [Option.getD_some]
        exact (List.drop_eq_getElem_cons hi).symm
      rw [hdrop] at hcons
      exact hcons.trans (List.drop_sublist_drop_left l hki)

theorem mapGetD_sublist {α : Type} [Inhabited α] (is : List ℕ) (l : List α)
    (hpw : is.Pairwise (· < ·)) (hbnd : ∀ i ∈ is, i < l.length) :
    List.Sublist (is.map (fun i => l.getD i default)) l := by
  have h := mapGetD_sublist_from is l 0 hpw hbnd (fun i _ => Nat.zero_le i)
  rwa [List.drop_zero] at h

theorem docsOfSentences_id (id author : String) (timestamp : ℚ) :
    ∀ (sentences : List String) (pos : ℕ) (d : SentenceDoc),
      d ∈ (Summarizer.docsOfSentences id author timestamp pos sentences).1 → d.id = id := by
  intro sentences
  induction sentences with
  | nil => intro pos d hd; simp [Summarizer.docsOfSentences] at hd
  | cons sentence rest ih =>
      intro pos d hd
      rw [Summarizer.docsOfSentences] at hd
      by_cases hnorm : Summarizer.normalize sentence = ""
      · rw [if_pos hnorm] at hd
        exact ih pos d hd
      · rw [if_neg hnorm] at hd
        simp only at hd
        split at hd
        · exact ih pos d hd
        · rcases List.mem_cons.mp hd with rfl | hmem
          · rfl
          · exact ih (pos + 1) d hmem

theorem buildDocsAux_id_mem :
    ∀ (messages : List MessageForSummary) (pos : ℕ) (d : SentenceDoc),
      d ∈ Summarizer.buildDocsAux pos messages → d.id ∈ messages.map (fun m => m.id) := by
  intro messages
  induction messages with
  | nil => intro pos d hd; simp [Summarizer.buildDocsAux] at hd
  | cons m rest ih =>
      intro pos d hd
      rw [Summarizer.buildDocsAux] at hd
      rcases List.mem_append.mp hd with hmem | hmem
      · rw [List.map_cons]
        exact List.mem_cons.mpr (Or.inl (docsOfSentences_id _ _ _ _ _ _ hmem))
      · rw [List.map_cons]
        exact List.mem_cons.mpr (Or.inr (ih _ d hmem))

theorem formatSummary_enforce_sublist (docs : List SentenceDoc) (sel : List ℕ)
    (hpw : sel.Pairwise (· < ·)) (hbnd : ∀ x ∈ sel, x < docs.length) :
    ∃ ds : List SentenceDoc, List.Sublist ds docs ∧
      (Summarizer.formatSummary (Summarizer.enforceCharacterLimit docs sel 380)).selectedIds =
        ds.map (fun d => d.id) := by
  obtain ⟨tail, heq, hsub⟩ := enforceAux_append sel docs 380 [] 0
  refine ⟨tail, ?_, ?_⟩
  · exact hsub.trans (mapGetD_sublist sel docs hpw hbnd)
  · have henf : Summarizer.enforceCharacterLimit docs sel 380 = tail := by
      rw [Summarizer.enforceCharacterLimit, heq, List.nil_append]
    rw [henf]
    rfl

/-- C10: on the sentence-selection path, `selectedIds` is the id list of a
sublist of the sentence docs (ids come from input messages, in sentence
order), and the same message id can occur more than once. -/
theorem C10_selectedIds_from_docs :
    (∀ (tax : Taxonomy) (messages : List MessageForSummary) (topic : String),
      (Summarizer.buildSentenceDocs messages).length ≠ 0 →
      ∃ ds : List SentenceDoc,
        List.Sublist ds (Summarizer.buildSentenceDocs messages) ∧
        (Summarizer.summarize tax messages topic).selectedIds = ds.map (fun d => d.id) ∧
        ∀ i ∈ (Summarizer.summarize tax messages topic).selectedIds,
          i ∈ messages.map (fun m => m.id)) ∧
    (∃ (tax : Taxonomy) (messages : List MessageForSummary) (topic : String),
      ¬ (Summarizer.summarize tax messages topic).selectedIds.Nodup) := by
  constructor
  · intro tax messages topic hne
    have hmlen : ¬ (messages.length = 0) := by
      intro h0
      have hnil : messages = [] := List.eq_nil_of_length_eq_zero h0
      subst hnil
      exact hne rfl
    rw [summarize_eq_cases, if_neg hmlen, if_neg hne]
    set scores := (Summarizer.buildSentenceDocs messages).enum.map
      (fun p => Summarizer.computeSentenceScore p.2
        (Summarizer.buildDocumentFrequency (Summarizer.buildSentenceDocs messages))
        (Summarizer.buildSentenceDocs messages).length
        (Summarizer.buildTopicTokens
          (((tax.lookup (toLowerStr topic)).map Topic.keywords).getD [])
          (((tax.lookup (toLowerStr topic)).map Topic.bigrams).getD []) topic)
        p.1 (Summarizer.buildSentenceDocs messages).length) with hscores
    have hslen : scores.length = (Summarizer.buildSentenceDocs messages).length := by
      rw [hscores, List.length_map, List.enum_length]
    split
    · rename_i hzero
      exfalso
      exact selectByMMR_ne_nil (Summarizer.buildSentenceDocs messages) scores 4
        (by rw [hslen]; exact hne) (by norm_num) hzero
    · rcases selectByMMR_pairwise_lt (Summarizer.buildSentenceDocs messages) scores 4
        with ⟨hpw, hbnd⟩
      have hbnd' : ∀ x ∈ Summarizer.selectByMMR (Summarizer.buildSentenceDocs messages)
          scores 4, x < (Summarizer.buildSentenceDocs messages).length := by
        intro x hx
        have := hbnd x hx
        rwa [hslen] at this
      rcases formatSummary_enforce_sublist (Summarizer.buildSentenceDocs messages)
        (Summarizer.selectByMMR (Summarizer.buildSentenceDocs messages) scores 4)
        hpw hbnd' with ⟨ds, hds, hids⟩
      refine ⟨ds, hds, hids, ?_⟩
      intro i hi
      rw [hids] at hi
      rcases List.mem_map.mp hi with ⟨d, hd_mem, rfl⟩
      exact buildDocsAux_id_mem messages 0 d (hds.subset hd_mem)
  · refine ⟨[], [twoSentenceMessage], "energy", ?_⟩
    rw [summarize_eq_cases, if_neg (by decide : ¬ (([twoSentenceMessage] :
        List MessageForSummary).length = 0)),
      if_neg (by decide : ¬ ((Summarizer.buildSentenceDocs [twoSentenceMessage]).length = 0))]
    set scores := (Summarizer.buildSentenceDocs [twoSentenceMessage]).enum.map
      (fun p => Summarizer.computeSentenceScore p.2
        (Summarizer.buildDocumentFrequency
          (Summarizer.buildSentenceDocs [twoSentenceMessage]))
        (Summarizer.buildSentenceDocs [twoSentenceMessage]).length
        (Summarizer.buildTopicTokens
          ((((([] : Taxonomy)).lookup (toLowerStr "energy")).map Topic.keywords).getD [])
          ((((([] : Taxonomy)).lookup (toLowerStr "energy")).map Topic.bigrams).getD [])
          "energy")
        p.1 (Summarizer.buildSentenceDocs [twoSentenceMessage]).length) with hscores
    have hslen : scores.length = 2 := by
      rw [hscores, List.length_map, List.enum_length]
      decide
    have hsel : Summarizer.selectByMMR (Summarizer.buildSentenceDocs [twoSentenceMessage])
        scores 4 = [0, 1] := by
      rw [selectByMMR_eq_range _ _ 4 (by rw [hslen]; norm_num), hslen]
      rfl
    rw [hsel, if_neg (by decide : ¬ (([0, 1] : List ℕ).length = 0))]
    decide

theorem C10_selectedIds_from_docs_witness :
    ∃ ds : List SentenceDoc,
      List.Sublist ds (Summarizer.buildSentenceDocs [twoSentenceMessage]) ∧
      (Summarizer.summarize [] [twoSentenceMessage] "policy").selectedIds =
        ds.map (fun d => d.id) ∧
      ∀ i ∈ (Summarizer.summarize [] [twoSentenceMessage] "policy").selectedIds,
        i ∈ ([twoSentenceMessage].map (fun m => m.id)) :=
  C10_selectedIds_from_docs.1 [] [twoSentenceMessage] "policy" (by decide)
